import Mathlib

/-!
Verification of the CSV-to-DB seeder worker service.

The Go sources are shallowly embedded in Lean:

* Go strings are modelled as `List Char` (`Str`); `strings.Split`,
  `strings.TrimSpace`, `strings.Contains` and `unicode.IsSpace` are modelled
  by the executable functions below.
* The MySQL database is modelled by a deterministic oracle (`DB`) that
  assigns an id to every dictionary / company name and to every geo triple;
  this reflects insert-ignore followed by select-back under UNIQUE keys.
* The in-memory caches of `CompanyRepository` are association lists with
  map semantics (`aset` overwrites the entry of an existing key).
* Database interactions of one loader attempt are recorded in an event
  trace (`Event`), which makes the temporal claims about transactions and
  the issued insert-ignore statements statable.
-/

set_option autoImplicit false

abbrev Str := List Char

/-! ## Go string primitives -/

/-- `unicode.IsSpace` from the Go standard library: the Unicode
White_Space property, enumerated by code point. -/
def goIsSpace (c : Char) : Bool :=
  c.toNat = 9 || c.toNat = 10 || c.toNat = 11 || c.toNat = 12 ||
  c.toNat = 13 || c.toNat = 32 || c.toNat = 133 || c.toNat = 160 ||
  c.toNat = 5760 || (8192 ≤ c.toNat && c.toNat ≤ 8202) ||
  c.toNat = 8232 || c.toNat = 8233 || c.toNat = 8239 ||
  c.toNat = 8287 || c.toNat = 12288

/-- Drop leading whitespace characters. -/
def trimLeftWs : Str → Str
  | [] => []
  | c :: t => if goIsSpace c then trimLeftWs t else c :: t

/-- `strings.TrimSpace`: drop leading and trailing Unicode whitespace. -/
def goTrimSpace (s : Str) : Str :=
  (trimLeftWs (trimLeftWs s.reverse)).reverse

/-- `strings.Split(s, sep)` for a one-character separator.  Like Go's
`Split`, the empty string yields one (empty) token. -/
def splitOnChar (sep : Char) : Str → List Str
  | [] => [[]]
  | c :: t =>
    let r := splitOnChar sep t
    if c = sep then [] :: r
    else
      match r with
      | h :: t' => (c :: h) :: t'
      | [] => [[c]]

/-- Whether `pre` is a prefix of `s`. -/
def isPre : Str → Str → Bool
  | [], _ => true
  | _ :: _, [] => false
  | a :: s, b :: t => a = b && isPre s t

/-- `strings.Contains(s, sub)`. -/
def strContains : Str → Str → Bool
  | [], sub => sub.isEmpty
  | c :: t, sub => isPre sub (c :: t) || strContains t sub

theorem splitOnChar_ne_nil (sep : Char) (s : Str) : splitOnChar sep s ≠ [] := by
  cases s with
  | nil => simp [splitOnChar]
  | cons c t =>
    simp only [splitOnChar]
    by_cases h : c = sep
    · simp [h]
    · simp only [if_neg h]
      cases splitOnChar sep t <;> simp

/-! ## `extractCategories` and its tail-cleanup heuristic (source:
`CompanyRepository.extractCategories`) -/

/-- The comma-split, trimmed token list of a string (the `sanitized`
slice built by `extractCategories` before the cleanup step). -/
def splitTrim (s : Str) : List Str :=
  (splitOnChar ',' s).map goTrimSpace

/-- The `shouldRemove` flag computed by `extractCategories` (the body of
the `elementCount > 1` branch of the Go source); `strLength` is the rune
count of the whole input, `elementCount` the token count, `lastValue` the
trimmed last token. -/
def shouldRemoveLast (strLength elementCount : Nat) (lastValue : Str) : Bool :=
  if 540 ≤ strLength then true
  else if decide (lastValue.length < 4) && decide (2 < elementCount) then true
  else
    let lastValueTrimmed := goTrimSpace lastValue
    if 0 < lastValueTrimmed.length then
      let lastChar := lastValueTrimmed.getLastD ' '
      decide (lastChar = '/') || decide (lastChar = '-') || decide (lastChar = ',')
    else false

/-- `extractCategories`, translated from the Go source. -/
def extractCategories (commaValues : Str) : List Str :=
  if commaValues = [] then []
  else
    let sanitized := splitTrim commaValues
    if sanitized = [] then []
    else
      let strLength := commaValues.length
      let elementCount := sanitized.length
      if 1 < elementCount then
        let lastValue := sanitized.getLastD []
        if shouldRemoveLast strLength elementCount lastValue then
          sanitized.dropLast
        else sanitized
      else sanitized

/-- The tail-cleanup rule of §4.3.1, written from the specification's
wording: two or more tokens result, and the string is ≥ 540 code points
long, or there are more than two tokens and the last is shorter than 4
code points, or the last token's final non-whitespace character is
`/`, `-` or `,`. -/
def tailCleanupFires (s : Str) : Bool :=
  let toks := splitTrim s
  decide (2 ≤ toks.length) &&
    (decide (540 ≤ s.length) ||
     (decide (2 < toks.length) && decide ((toks.getLastD []).length < 4)) ||
     (match (goTrimSpace (toks.getLastD [])).getLast? with
      | some c => c = '/' || c = '-' || c = ','
      | none => false))

theorem splitTrim_ne_nil (s : Str) : splitTrim s ≠ [] := by
  simpa [splitTrim] using splitOnChar_ne_nil ',' s

theorem shouldRemoveLast_eq_disj (L n : Nat) (lastV : Str) :
    shouldRemoveLast L n lastV =
      (decide (540 ≤ L) ||
       (decide (2 < n) && decide (lastV.length < 4)) ||
       (match (goTrimSpace lastV).getLast? with
        | some c => decide (c = '/') || decide (c = '-') || decide (c = ',')
        | none => false)) := by
  simp only [shouldRemoveLast]
  by_cases hL : 540 ≤ L
  · simp [hL]
  · simp only [if_neg hL, decide_eq_true_eq]
    by_cases hsh : lastV.length < 4 ∧ 2 < n
    · simp [hsh.1, hsh.2, hL]
    · have hb : (decide (lastV.length < 4) && decide (2 < n)) = false := by
        simp only [Bool.and_eq_false_iff, decide_eq_false_iff_not]
        tauto
      have hb' : (decide (2 < n) && decide (lastV.length < 4)) = false := by
        simp only [Bool.and_eq_false_iff, decide_eq_false_iff_not]
        tauto
      rw [hb, if_neg (by simp)]
      simp only [decide_eq_true_eq] at hb'
      by_cases hnil : goTrimSpace lastV = []
      · simp [hnil, hL, hb']
      · have hpos : 0 < (goTrimSpace lastV).length := List.length_pos.mpr hnil
        have hlast : (goTrimSpace lastV).getLast? =
            some ((goTrimSpace lastV).getLast hnil) :=
          List.getLast?_eq_getLast _ hnil
        have hgetD : (goTrimSpace lastV).getLastD ' ' =
            (goTrimSpace lastV).getLast hnil := by
          rw [List.getLastD_eq_getLast?, hlast, Option.getD_some]
        simp [hpos, hgetD, hlast, hL, hb']

theorem extractCategories_spec (s : Str) (hs : s ≠ []) :
    extractCategories s =
      (if tailCleanupFires s then (splitTrim s).dropLast else splitTrim s) := by
  have hnn : splitTrim s ≠ [] := splitTrim_ne_nil s
  simp only [extractCategories, if_neg hs, if_neg hnn, tailCleanupFires,
    shouldRemoveLast_eq_disj]
  by_cases h2 : 1 < (splitTrim s).length
  · have h2' : decide (2 ≤ (splitTrim s).length) = true := by
      simp only [decide_eq_true_eq]; omega
    simp [h2, h2']
  · have h2' : decide (2 ≤ (splitTrim s).length) = false := by
      simp only [decide_eq_false_iff_not]; omega
    simp [h2, h2']

/-- C5 counterexample input: the empty string.  `extractCategories ""`
returns the empty list, while the comma-split of `""` has one token, so
the claimed "length = split-count minus 1 iff the rule fires" fails
(length 0 = 1 - 1 although the rule does not fire). -/
theorem C5_counterexample :
    extractCategories [] = [] ∧ splitTrim [] = [[]] ∧
    tailCleanupFires [] = false ∧
    ¬(((extractCategories []).length = (splitTrim []).length - 1) ↔
        tailCleanupFires [] = true) := by
  refine ⟨by decide, by decide, by decide, ?_⟩
  intro h
  exact absurd (h.mp (by decide)) (by decide)

/-- C5 (amended): for every NON-EMPTY input string `s`,
`extractCategories s` returns the comma-split trimmed tokens of `s`,
dropping the last one exactly when the tail-cleanup rule fires; the
result length equals the split-count minus 1 iff the rule fires, and
single-token inputs are returned unchanged.  (For the empty string the
result is the empty list, one shorter than the single-token split.) -/
theorem C5_amended (s : Str) (hs : s ≠ []) :
    (tailCleanupFires s = true → extractCategories s = (splitTrim s).dropLast) ∧
    (tailCleanupFires s = false → extractCategories s = splitTrim s) ∧
    (((extractCategories s).length = (splitTrim s).length - 1) ↔
      tailCleanupFires s = true) ∧
    ((splitTrim s).length = 1 → extractCategories s = splitTrim s) := by
  have hspec := extractCategories_spec s hs
  have hnn : splitTrim s ≠ [] := splitTrim_ne_nil s
  have hlen : 1 ≤ (splitTrim s).length := List.length_pos.mpr hnn
  have hfire2 : tailCleanupFires s = true → 2 ≤ (splitTrim s).length := by
    intro hf
    simp only [tailCleanupFires, Bool.and_eq_true, decide_eq_true_eq] at hf
    exact hf.1
  refine ⟨?_, ?_, ?_, ?_⟩
  · intro hf; rw [hspec, if_pos hf]
  · intro hf; rw [hspec, hf]; simp
  · constructor
    · intro hl
      by_contra hf
      have hf' : tailCleanupFires s = false := by
        cases h : tailCleanupFires s
        · rfl
        · exact absurd h hf
      rw [hspec, hf'] at hl
      simp at hl
      omega
    · intro hf
      rw [hspec, if_pos hf, List.length_dropLast]
  · intro h1
    have hf : tailCleanupFires s = false := by
      cases h : tailCleanupFires s
      · rfl
      · have := hfire2 h; omega
    rw [hspec, hf]; simp

/-- Final sanity witness for C5: a concrete two-token input on which the
rule does not fire is returned as its trimmed split. -/
theorem C5_witness :
    ((['a', ',', 'b', 'c', 'd'] : Str) ≠ []) ∧
    extractCategories ['a', ',', 'b', 'c', 'd'] =
      splitTrim ['a', ',', 'b', 'c', 'd'] :=
  ⟨by decide, (C5_amended ['a', ',', 'b', 'c', 'd'] (by decide)).2.1 (by decide)⟩

/-! ## Decimal rendering and `buildGeoKey`
(source: `CompanyRepository.buildGeoKey`, which renders each optional id
with `fmt.Sprintf` as a decimal string, the empty string for `nil`). -/

/-- Fuel-driven decimal rendering of a natural number, prepended to an
accumulator (the shape of `fmt`'s integer formatting loop). -/
def natDecCore : Nat → Nat → Str → Str
  | 0, _, acc => acc
  | fuel + 1, n, acc =>
    let d := Nat.digitChar (n % 10)
    let n' := n / 10
    if n' = 0 then d :: acc else natDecCore fuel n' (d :: acc)

/-- Decimal rendering of a natural number (`"0"` for zero). -/
def natDecimal (n : Nat) : Str := natDecCore (n + 1) n []

/-- `fmt.Sprintf("%d", i)` for a Go `int`. -/
def intDecimal (i : Int) : Str :=
  if i < 0 then '-' :: natDecimal i.natAbs else natDecimal i.natAbs

/-- One slot of the geo key: empty for `nil`, decimal otherwise. -/
def optIdStr : Option Int → Str
  | none => []
  | some i => intDecimal i

/-- `buildGeoKey`, translated from the Go source: `"<r>:<d>:<c>"`. -/
def buildGeoKey (regionID districtID cityID : Option Int) : Str :=
  optIdStr regionID ++ ':' :: (optIdStr districtID ++ ':' :: optIdStr cityID)

/-- Canonical little-endian digit list, with `[0]` for zero. -/
def digitsish (n : Nat) : List Nat := if n = 0 then [0] else Nat.digits 10 n

/-- Reference (non-fuel) decimal rendering through `Nat.digits`. -/
def natDecUnb (n : Nat) : Str := (digitsish n).reverse.map Nat.digitChar

theorem natDecCore_eq : ∀ (fuel n : Nat) (acc : Str), 1 ≤ fuel →
    n < 10 ^ fuel → natDecCore fuel n acc = natDecUnb n ++ acc := by
  intro fuel
  induction fuel with
  | zero => intro n acc h; omega
  | succ f ih =>
    intro n acc _ hn
    simp only [natDecCore]
    by_cases h0 : n / 10 = 0
    · have h10 : n < 10 := by omega
      rw [if_pos h0]
      by_cases hz : n = 0
      · subst hz
        simp [natDecUnb, digitsish]
      · have hd : Nat.digits 10 n = [n] := by
          rw [Nat.digits_def' (by norm_num : 1 < 10) (Nat.pos_of_ne_zero hz)]
          simp [h0, Nat.mod_eq_of_lt h10]
      
        simp [natDecUnb, digitsish, hz, hd, Nat.mod_eq_of_lt h10]
    · rw [if_neg h0]
      have hge : 10 ≤ n := by omega
      have hf1 : 1 ≤ f := by
        by_contra hf
        have : f = 0 := by omega
        subst this
        simp at hn
        omega
      have hlt : n / 10 < 10 ^ f := by
        rw [Nat.div_lt_iff_lt_mul (by norm_num : 0 < 10)]
        calc n < 10 ^ (f + 1) := hn
          _ = 10 ^ f * 10 := by ring
      rw [ih (n / 10) _ hf1 hlt]
      have hstep : natDecUnb n = natDecUnb (n / 10) ++ [Nat.digitChar (n % 10)] := by
        have hd : Nat.digits 10 n = n % 10 :: Nat.digits 10 (n / 10) :=
          Nat.digits_def' (by norm_num : 1 < 10) (by omega)
        have hne : ¬ n = 0 := by omega
        rw [natDecUnb, natDecUnb, digitsish, digitsish, if_neg hne, if_neg h0, hd]
        simp
      rw [hstep]
      simp

theorem natDecimal_eq_unb (n : Nat) : natDecimal n = natDecUnb n := by
  have h : n < 10 ^ (n + 1) := by
    calc n < 2 ^ n := Nat.lt_two_pow n
      _ ≤ 10 ^ n := Nat.pow_le_pow_left (by norm_num) n
      _ ≤ 10 ^ (n + 1) := Nat.pow_le_pow_right (by norm_num) (Nat.le_succ n)
  simpa using natDecCore_eq (n + 1) n [] (by omega) h

/-- Inverse digit map. -/
def charToDigit (c : Char) : Nat := c.toNat - 48

theorem charToDigit_digitChar : ∀ d : Nat, d < 10 →
    charToDigit (Nat.digitChar d) = d := by decide

theorem digitChar_bounds : ∀ d : Nat, d < 10 →
    48 ≤ (Nat.digitChar d).toNat ∧ (Nat.digitChar d).toNat ≤ 57 := by decide

theorem digitsish_lt (n : Nat) : ∀ d ∈ digitsish n, d < 10 := by
  intro d hd
  simp only [digitsish] at hd
  by_cases h : n = 0
  · simp [h] at hd
    omega
  · simp only [if_neg h] at hd
    exact Nat.digits_lt_base (by norm_num) hd

theorem digitsish_ne_nil (n : Nat) : digitsish n ≠ [] := by
  simp only [digitsish]
  by_cases h : n = 0
  · simp [h]
  · simp [h, Nat.digits_ne_nil_iff_ne_zero]

theorem ofDigits_digitsish (n : Nat) : Nat.ofDigits 10 (digitsish n) = n := by
  by_cases h : n = 0
  · simp [digitsish, h, Nat.ofDigits_cons, Nat.ofDigits_nil]
  · simp [digitsish, h, Nat.ofDigits_digits]

/-- Decode a big-endian decimal character string. -/
def decodeNat (cs : Str) : Nat := Nat.ofDigits 10 ((cs.map charToDigit).reverse)

theorem decode_natDecUnb (n : Nat) : decodeNat (natDecUnb n) = n := by
  have hmap : (natDecUnb n).map charToDigit = (digitsish n).reverse := by
    simp only [natDecUnb, List.map_map]
    have : ∀ d ∈ (digitsish n).reverse, (charToDigit ∘ Nat.digitChar) d = id d := by
      intro d hd
      have : d < 10 := digitsish_lt n d (List.mem_reverse.mp hd)
      simp [charToDigit_digitChar d this]
    rw [List.map_congr_left this, List.map_id]
  rw [decodeNat, hmap, List.reverse_reverse, ofDigits_digitsish]

theorem natDecimal_inj {m n : Nat} (h : natDecimal m = natDecimal n) : m = n := by
  have := congrArg decodeNat h
  rwa [natDecimal_eq_unb, natDecimal_eq_unb, decode_natDecUnb,
    decode_natDecUnb] at this

theorem natDecimal_ne_nil (n : Nat) : natDecimal n ≠ [] := by
  rw [natDecimal_eq_unb, natDecUnb]
  simp [digitsish_ne_nil n]

theorem mem_natDecimal_bounds {n : Nat} {c : Char} (h : c ∈ natDecimal n) :
    48 ≤ c.toNat ∧ c.toNat ≤ 57 := by
  rw [natDecimal_eq_unb, natDecUnb] at h
  obtain ⟨d, hd, rfl⟩ := List.mem_map.mp h
  exact digitChar_bounds d (digitsish_lt n d (List.mem_reverse.mp hd))

theorem dash_not_mem_natDecimal (n : Nat) : '-' ∉ natDecimal n := by
  intro h
  exact absurd (mem_natDecimal_bounds h) (by decide)

theorem colon_not_mem_natDecimal (n : Nat) : ':' ∉ natDecimal n := by
  intro h
  exact absurd (mem_natDecimal_bounds h) (by decide)

theorem intDecimal_inj {i j : Int} (h : intDecimal i = intDecimal j) : i = j := by
  simp only [intDecimal] at h
  by_cases hi : i < 0 <;> by_cases hj : j < 0
  · rw [if_pos hi, if_pos hj] at h
    simp only [List.cons.injEq, true_and] at h
    have := natDecimal_inj h
    omega
  · rw [if_pos hi, if_neg hj] at h
    exfalso
    apply dash_not_mem_natDecimal j.natAbs
    rw [← h]
    exact List.mem_cons_self _ _
  · rw [if_neg hi, if_pos hj] at h
    exfalso
    apply dash_not_mem_natDecimal i.natAbs
    rw [h]
    exact List.mem_cons_self _ _
  · rw [if_neg hi, if_neg hj] at h
    have := natDecimal_inj h
    omega

theorem intDecimal_ne_nil (i : Int) : intDecimal i ≠ [] := by
  simp only [intDecimal]
  by_cases hi : i < 0
  · simp [hi]
  · simp [hi, natDecimal_ne_nil]

theorem colon_not_mem_intDecimal (i : Int) : ':' ∉ intDecimal i := by
  simp only [intDecimal]
  by_cases hi : i < 0
  · simp only [if_pos hi, List.mem_cons]
    rintro (h | h)
    · exact absurd h (by decide)
    · exact colon_not_mem_natDecimal _ h
  · simp only [if_neg hi]
    exact colon_not_mem_natDecimal _

theorem optIdStr_inj {a b : Option Int} (h : optIdStr a = optIdStr b) :
    a = b := by
  cases a with
  | none =>
    cases b with
    | none => rfl
    | some j => exact absurd h.symm (intDecimal_ne_nil j)
  | some i =>
    cases b with
    | none => exact absurd h (intDecimal_ne_nil i)
    | some j => exact congrArg some (intDecimal_inj h)

theorem colon_not_mem_optIdStr (o : Option Int) : ':' ∉ optIdStr o := by
  cases o with
  | none => simp [optIdStr]
  | some i => exact colon_not_mem_intDecimal i

theorem append_colon_cancel : ∀ (xs xs' ys ys' : Str), ':' ∉ xs → ':' ∉ xs' →
    xs ++ ':' :: ys = xs' ++ ':' :: ys' → xs = xs' ∧ ys = ys' := by
  intro xs
  induction xs with
  | nil =>
    intro xs' ys ys' _ hx' h
    cases xs' with
    | nil =>
      simp only [List.nil_append, List.cons.injEq] at h
      exact ⟨rfl, h.2⟩
    | cons a t =>
      simp only [List.nil_append, List.cons_append, List.cons.injEq] at h
      exact absurd (h.1 ▸ List.mem_cons_self a t) hx'
  | cons a t ih =>
    intro xs' ys ys' hx hx' h
    cases xs' with
    | nil =>
      simp only [List.cons_append, List.nil_append, List.cons.injEq] at h
      exact absurd (by rw [h.1]; exact List.mem_cons_self ':' t) hx
    | cons b t' =>
      simp only [List.cons_append, List.cons.injEq] at h
      obtain ⟨hab, hrest⟩ := h
      have hxt : ':' ∉ t := fun hm => hx (List.mem_cons_of_mem a hm)
      have hxt' : ':' ∉ t' := fun hm => hx' (List.mem_cons_of_mem b hm)
      obtain ⟨h1, h2⟩ := ih t' ys ys' hxt hxt' hrest
      exact ⟨by rw [hab, h1], h2⟩

/-- C10: `buildGeoKey` is injective on triples of optional ids — a `nil`
slot is distinguished from every numeric id, so distinct
`(region_id, district_id, city_id)` triples never collide under the same
geo-cache key. -/
theorem C10_buildGeoKey_injective (r d c r' d' c' : Option Int)
    (h : buildGeoKey r d c = buildGeoKey r' d' c') :
    r = r' ∧ d = d' ∧ c = c' := by
  unfold buildGeoKey at h
  obtain ⟨h1, h2⟩ := append_colon_cancel _ _ _ _
    (colon_not_mem_optIdStr r) (colon_not_mem_optIdStr r') h
  obtain ⟨h3, h4⟩ := append_colon_cancel _ _ _ _
    (colon_not_mem_optIdStr d) (colon_not_mem_optIdStr d') h2
  exact ⟨optIdStr_inj h1, optIdStr_inj h3, optIdStr_inj h4⟩

/-- Witness for C10 at a concrete triple. -/
theorem C10_witness :
    buildGeoKey (some 12) none (some 3) = buildGeoKey (some 12) none (some 3) ∧
    ((some 12 : Option Int) = some 12 ∧ (none : Option Int) = none ∧
      (some 3 : Option Int) = some 3) :=
  ⟨by decide,
   C10_buildGeoKey_injective (some 12) none (some 3) (some 12) none (some 3)
     (by decide)⟩

/-! ## Association lists with Go-map semantics -/

/-- Lookup of the first entry with key `k`. -/
def alookup {α β : Type} [DecidableEq α] (k : α) : List (α × β) → Option β
  | [] => none
  | (k', v) :: t => if k = k' then some v else alookup k t

/-- Map-style assignment: overwrite the entry of an existing key, append
a new entry otherwise. -/
def aset {α β : Type} [DecidableEq α] (k : α) (v : β) :
    List (α × β) → List (α × β)
  | [] => [(k, v)]
  | (k', v') :: t => if k = k' then (k, v) :: t else (k', v') :: aset k v t

/-- The keys of an association list are pairwise distinct. -/
def NodupKeys {α β : Type} (l : List (α × β)) : Prop := (l.map Prod.fst).Nodup

/-- First-occurrence deduplication with an explicit `seen` accumulator
(the shape of the Go set-collection loops over `map[...]bool`). -/
def dedupKeepFirstAux {α : Type} [DecidableEq α] (seen : List α) :
    List α → List α
  | [] => []
  | x :: t =>
    if x ∈ seen then dedupKeepFirstAux seen t
    else x :: dedupKeepFirstAux (x :: seen) t

/-- First-occurrence deduplication. -/
def dedupKeepFirst {α : Type} [DecidableEq α] (l : List α) : List α :=
  dedupKeepFirstAux [] l

/-- `uniqueInts`, translated from the Go source: keep the first
occurrence of each value. -/
def uniqueInts (ints : List Int) : List Int := dedupKeepFirstAux [] ints

def chunksOfAux {α : Type} (n : Nat) : Nat → List α → List (List α)
  | 0, _ => []
  | _, [] => []
  | fuel + 1, l => l.take n :: chunksOfAux n fuel (l.drop n)

/-- Split a list into chunks of at most `n` elements (the batching used
for large `IN`-lists and bulk inserts). -/
def chunksOf {α : Type} (n : Nat) (l : List α) : List (List α) :=
  chunksOfAux n l.length l

/-! ## Data model of the loader -/

/-- A parsed CSV row (source: `models.go`). -/
structure GisCompany where
  name : Str
  region : Str
  district : Str
  city : Str
  email : Str
  phone : Str
  category : Str
  subcategory : Str
deriving DecidableEq

/-- The five dictionary tables. -/
inductive DTable
  | region
  | district
  | city
  | category
  | subcategory
deriving DecidableEq

/-- The fixed preload order `[region, district, city, category,
subcategory]` of the Go source. -/
def dictTablesOrder : List DTable :=
  [.region, .district, .city, .category, .subcategory]

/-- The three link tables. -/
inductive LinkTable
  | geo
  | category
  | subcategory
deriving DecidableEq

abbrev GeoTriple := Option Int × Option Int × Option Int

/-- The database oracle: a stable assignment of ids to names and geo
triples.  It models insert-ignore followed by select-back on tables with
UNIQUE keys — every name required by a batch resolves to a fixed id. -/
structure DB where
  regionId : Str → Int
  districtId : Str → Int
  cityId : Str → Int
  categoryId : Str → Int
  subcategoryId : Str → Int
  companyId : Str → Int
  geoId : GeoTriple → Int

def dbOf (db : DB) : DTable → (Str → Int)
  | .region => db.regionId
  | .district => db.districtId
  | .city => db.cityId
  | .category => db.categoryId
  | .subcategory => db.subcategoryId

/-- One database / scheduling interaction of a loader attempt. -/
inductive Event
  | sleepRand (lo hi : Nat)
  | beginMain
  | beginDict (t : DTable)
  | commitDict (t : DTable)
  | execInsertDict (t : DTable) (names : List Str)
  | queryDict (t : DTable) (names : List Str)
  | execFK (enabled : Bool)
  | execInsertGeo (triples : List GeoTriple)
  | createTempGeo
  | insertTempGeo (triples : List GeoTriple)
  | queryGeoJoin
  | execInsertCompanies (names : List Str)
  | queryCompanies (names : List Str)
  | execInsertLink (t : LinkTable) (pairs : List (Int × Int))
  | commitMain
deriving DecidableEq

/-- The in-memory state of `CompanyRepository`: the dictionary caches,
the geo cache keyed by `buildGeoKey` strings, the two link collectors,
the company counter and the error list. -/
structure RepoState where
  region : List (Str × Int)
  district : List (Str × Int)
  city : List (Str × Int)
  category : List (Str × Int)
  subcategory : List (Str × Int)
  company : List (Str × Int)
  geoCache : List (Str × Int)
  companyGeos : List (Int × List Int)
  companyCategories : List (Int × (List Int × List Int))
  companyCount : Nat
  errors : List Str
deriving DecidableEq

/-- `NewCompanyRepository`: everything empty. -/
def initRepo : RepoState := ⟨[], [], [], [], [], [], [], [], [], 0, []⟩

def cacheOf (st : RepoState) : DTable → List (Str × Int)
  | .region => st.region
  | .district => st.district
  | .city => st.city
  | .category => st.category
  | .subcategory => st.subcategory

def setCache (st : RepoState) : DTable → List (Str × Int) → RepoState
  | .region, c => { st with region := c }
  | .district, c => { st with district := c }
  | .city, c => { st with city := c }
  | .category, c => { st with category := c }
  | .subcategory, c => { st with subcategory := c }

/-- The (non-empty) dictionary names one record contributes to a table
(for category/subcategory after the tail-cleanup of
`extractCategories`). -/
def recordDictNames (t : DTable) (r : GisCompany) : List Str :=
  match t with
  | .region => if r.region = [] then [] else [r.region]
  | .district => if r.district = [] then [] else [r.district]
  | .city => if r.city = [] then [] else [r.city]
  | .category => (extractCategories r.category).filter (fun c => !c.isEmpty)
  | .subcategory => (extractCategories r.subcategory).filter (fun c => !c.isEmpty)

/-- The distinct names a batch requires for one dictionary table (the
`uniqueValues` sets of the Go source; Go map iteration order is
unspecified, the model fixes first-occurrence order — all claims treat
these lists as sets). -/
def collectDictNames (t : DTable) (records : List GisCompany) : List Str :=
  dedupKeepFirst (records.flatMap (recordDictNames t))

/-- `loadDictionaryFromDB`: select id/name back for every required name,
in chunks of 10000, and store them into the table's cache. -/
def loadDictionaryFromDB (db : DB) (st : RepoState) (t : DTable)
    (names : List Str) : RepoState × List Event :=
  if names = [] then (st, [])
  else
    (setCache st t (names.foldl (fun c n => aset n (dbOf db t n) c) (cacheOf st t)),
     (chunksOf 10000 names).map (Event.queryDict t))

/-- `batchInsertDictionary`: insert-ignore the names missing from the
cache, then load ids for all required names. -/
def batchInsertDictionary (db : DB) (st : RepoState) (t : DTable)
    (names : List Str) : RepoState × List Event :=
  let newNames := names.filter (fun n => (alookup n (cacheOf st t)).isNone)
  let namesToLoad := names
  let insEv : List Event :=
    if newNames = [] then [] else [Event.execInsertDict t newNames]
  let r := loadDictionaryFromDB db st t namesToLoad
  (r.1, insEv ++ r.2)

/-- One iteration of the table loop of `preloadDictionariesOutsideTx`
(success path: the dedicated transaction commits at first attempt). -/
def preloadStep (db : DB) (records : List GisCompany)
    (acc : RepoState × List Event) (it : Nat × DTable) : RepoState × List Event :=
  let names := collectDictNames it.2 records
  if names = [] then acc
  else
    let sleepEv : List Event :=
      if 0 < it.1 then [Event.sleepRand 50 150] else []
    let r := batchInsertDictionary db acc.1 it.2 names
    (r.1, acc.2 ++ sleepEv ++ [Event.beginDict it.2] ++ r.2 ++ [Event.commitDict it.2])

/-- `preloadDictionariesOutsideTx` (success path): each dictionary table,
in the fixed order, in its own dedicated transaction. -/
def preloadDictionariesOutsideTx (db : DB) (st : RepoState)
    (records : List GisCompany) : RepoState × List Event :=
  dictTablesOrder.enum.foldl (preloadStep db records) (st, [])

/-- `getIDFromCache`: `nil` for the empty key, the cached id otherwise. -/
def getIDFromCache (cache : List (Str × Int)) (key : Str) : Option Int :=
  if key = [] then none else alookup key cache

def resolveTriple (st : RepoState) (r : GisCompany) : GeoTriple :=
  (getIDFromCache st.region r.region, getIDFromCache st.district r.district,
   getIDFromCache st.city r.city)

/-- The `geoData` map of `batchInsertGeo`: distinct resolved triples of
the batch, keyed by `buildGeoKey`, skipping all-`nil` rows. -/
def collectGeoData (st : RepoState) (records : List GisCompany) :
    List (Str × GeoTriple) :=
  records.foldl
    (fun acc r =>
      let tr := resolveTriple st r
      if tr.1 = none ∧ tr.2.1 = none ∧ tr.2.2 = none then acc
      else
        let key := buildGeoKey tr.1 tr.2.1 tr.2.2
        if (alookup key acc).isSome then acc else acc ++ [(key, tr)])
    []

/-- `loadGeoFromDB`: temp-table based select of the ids of all inserted
triples, stored into the geo cache under their `buildGeoKey` keys. -/
def loadGeoFromDB (db : DB) (st : RepoState) (geoList : List (Str × GeoTriple)) :
    RepoState × List Event :=
  if geoList = [] then (st, [])
  else
    ({ st with geoCache :=
        geoList.foldl (fun gc p => aset p.1 (db.geoId p.2) gc) st.geoCache },
     [Event.createTempGeo] ++
       (chunksOf 5000 (geoList.map Prod.snd)).map Event.insertTempGeo ++
       [Event.queryGeoJoin])

/-- `batchInsertGeo`: insert-ignore the batch's distinct triples in
chunks of 10000, then load their ids back. -/
def batchInsertGeo (db : DB) (st : RepoState) (records : List GisCompany) :
    RepoState × List Event :=
  let geoList := collectGeoData st records
  if geoList = [] then (st, [])
  else
    let r := loadGeoFromDB db st geoList
    ((chunksOf 10000 (geoList.map Prod.snd)).map Event.execInsertGeo ++ r.2
      |> fun evs => (r.1, evs))

/-- `loadCompaniesFromDB`: select ids of the still-uncached names; each
newly seen name increments `companyCount`. -/
def loadCompaniesFromDB (db : DB) (st : RepoState) (names : List Str) :
    RepoState × List Event :=
  let newNames := names.filter
    (fun n => !n.isEmpty && (alookup n st.company).isNone)
  if newNames = [] then (st, [])
  else
    (newNames.foldl
      (fun s n =>
        if (alookup n s.company).isSome then s
        else { s with company := aset n (db.companyId n) s.company,
                      companyCount := s.companyCount + 1 })
      st,
     [Event.queryCompanies newNames])

/-- `batchInsertCompanies`: insert-ignore the distinct non-empty names
absent from the company cache, then load their ids. -/
def batchInsertCompanies (db : DB) (st : RepoState)
    (records : List GisCompany) : RepoState × List Event :=
  let uniqueCompanies := dedupKeepFirst
    ((records.map GisCompany.name).filter
      (fun n => !n.isEmpty && (alookup n st.company).isNone))
  if uniqueCompanies = [] then (st, [])
  else
    let r := loadCompaniesFromDB db st uniqueCompanies
    (r.1, [Event.execInsertCompanies uniqueCompanies] ++ r.2)

/-- `getGeoID`: 0 when the whole triple is `nil` or the key is not in
the geo cache (Go's zero-value map read). -/
def getGeoID (st : RepoState) (r : GisCompany) : Int :=
  let tr := resolveTriple st r
  if tr.1 = none ∧ tr.2.1 = none ∧ tr.2.2 = none then 0
  else (alookup (buildGeoKey tr.1 tr.2.1 tr.2.2) st.geoCache).getD 0

/-- `getCategoryIDs`: the cached ids of the extracted category and
subcategory names (unknown names are skipped). -/
def getCategoryIDs (st : RepoState) (r : GisCompany) : List Int × List Int :=
  ((extractCategories r.category).filterMap
     (fun c => if c = [] then none else alookup c st.category),
   (extractCategories r.subcategory).filterMap
     (fun c => if c = [] then none else alookup c st.subcategory))

/-- `collectCompanyGeos`: add the pair to the collector unless already
present. -/
def collectCompanyGeos (st : RepoState) (companyID geoID : Int) : RepoState :=
  let cur := (alookup companyID st.companyGeos).getD []
  if geoID ∈ cur then st
  else { st with companyGeos := aset companyID (cur ++ [geoID]) st.companyGeos }

/-- `collectCompanyCategories`: merge the ids into the per-company
category and subcategory sets (`uniqueInts` deduplication). -/
def collectCompanyCategories (st : RepoState) (companyID : Int)
    (categoryIDs subcategoryIDs : List Int) : RepoState :=
  let cur := (alookup companyID st.companyCategories).getD ([], [])
  let merged := (uniqueInts (cur.1 ++ categoryIDs), uniqueInts (cur.2 ++ subcategoryIDs))
  { st with companyCategories := aset companyID merged st.companyCategories }

/-- One iteration of the link loop of `insertWithRetry`: NOTE the
`continue` when `getGeoID` returns 0 — such a row contributes neither
geo nor category/subcategory links. -/
def processLinkRow (s : RepoState) (r : GisCompany) : RepoState :=
  let geoID := getGeoID s r
  if geoID = 0 then s
  else
    let ids := getCategoryIDs s r
    let companyID := (alookup r.name s.company).getD 0
    if companyID = 0 then s
    else
      collectCompanyCategories (collectCompanyGeos s companyID geoID)
        companyID ids.1 ids.2

/-- The link loop of `insertWithRetry`. -/
def processLinks (st : RepoState) (records : List GisCompany) : RepoState :=
  records.foldl processLinkRow st

def pivotBatchSize : Nat := 5000

def flatGeoPairs (l : List (Int × List Int)) : List (Int × Int) :=
  l.flatMap (fun p => p.2.map (fun g => (p.1, g)))

def flatCatPairs (l : List (Int × (List Int × List Int))) : List (Int × Int) :=
  l.flatMap (fun p => p.2.1.map (fun c => (p.1, c)))

def flatSubPairs (l : List (Int × (List Int × List Int))) : List (Int × Int) :=
  l.flatMap (fun p => p.2.2.map (fun c => (p.1, c)))

/-- `insertCompanyGeos`: flatten the collector and insert-ignore the
pairs in chunks of `pivotBatchSize`. -/
def insertCompanyGeosEvents (st : RepoState) : List Event :=
  if st.companyGeos = [] then []
  else
    let allLinks := flatGeoPairs st.companyGeos
    if allLinks = [] then []
    else (chunksOf pivotBatchSize allLinks).map (Event.execInsertLink .geo)

/-- `insertCompanyCategories`: the same for the category and then the
subcategory component of the collector. -/
def insertCompanyCategoriesEvents (st : RepoState) : List Event :=
  if st.companyCategories = [] then []
  else
    (let catLinks := flatCatPairs st.companyCategories
     if catLinks = [] then []
     else (chunksOf pivotBatchSize catLinks).map (Event.execInsertLink .category)) ++
    (let subLinks := flatSubPairs st.companyCategories
     if subLinks = [] then []
     else (chunksOf pivotBatchSize subLinks).map (Event.execInsertLink .subcategory))

/-- One attempt of `Insert` (`insertWithRetry`): pre-transaction jitter,
`db.Begin`, the dictionary preload in its own transactions, then the
main-transaction statements, and the final commit (success path: no
database operation fails). -/
def insertWithRetry (db : DB) (st : RepoState) (records : List GisCompany) :
    RepoState × List Event :=
  let r1 := preloadDictionariesOutsideTx db st records
  let r2 := batchInsertGeo db r1.1 records
  let r3 := batchInsertCompanies db r2.1 records
  let st4 := processLinks r3.1 records
  (st4,
   [Event.sleepRand 100 600, Event.beginMain] ++ r1.2 ++ [Event.execFK false] ++
     r2.2 ++ r3.2 ++ insertCompanyGeosEvents st4 ++
     insertCompanyCategoriesEvents st4 ++ [Event.execFK true, Event.commitMain])

/-- Import statistics (source: `models.go` and `GetSummary`). -/
structure Summary where
  company : Nat
  category : Nat
  subcategory : Nat
  region : Nat
  district : Nat
  city : Nat
  errors : List Str
deriving DecidableEq

/-- `GetSummary`, translated from the Go source: `Category` is the SIZE
of the `companyCategories` collector map. -/
def GetSummary (st : RepoState) : Summary :=
  ⟨st.companyCount, st.companyCategories.length, st.subcategory.length,
   st.region.length, st.district.length, st.city.length, st.errors⟩

/-! ## Event classifiers and generic fold lemmas -/

/-- Events that belong to the dedicated per-dictionary preload
transactions. -/
def eventIsDictTx : Event → Bool
  | .beginDict _ => true
  | .commitDict _ => true
  | .execInsertDict _ _ => true
  | .queryDict _ _ => true
  | _ => false

/-- Statements executed on the main transaction. -/
def eventIsMainStmt : Event → Bool
  | .execFK _ => true
  | .execInsertGeo _ => true
  | .createTempGeo => true
  | .insertTempGeo _ => true
  | .queryGeoJoin => true
  | .execInsertCompanies _ => true
  | .queryCompanies _ => true
  | .execInsertLink _ _ => true
  | .commitMain => true
  | _ => false

def eventIsLinkInsert : Event → Bool
  | .execInsertLink _ _ => true
  | _ => false

def eventIsGeoInsert : Event → Bool
  | .execInsertGeo _ => true
  | _ => false

/-- The pairs an event inserts into the given link table. -/
def eventLinkPairs (t : LinkTable) : Event → List (Int × Int)
  | .execInsertLink t' ps => if t' = t then ps else []
  | _ => []

/-- All pairs a trace insert-ignores into the given link table. -/
def linkPairsIssued (t : LinkTable) (evs : List Event) : List (Int × Int) :=
  evs.flatMap (eventLinkPairs t)

theorem foldl_preserve {σ ι : Type} (P : σ → Prop) (step : σ → ι → σ)
    (hstep : ∀ s i, P s → P (step s i)) :
    ∀ (items : List ι) (s : σ), P s → P (items.foldl step s) := by
  intro items
  induction items with
  | nil => intro s hs; exact hs
  | cons i t ih => intro s hs; exact ih (step s i) (hstep s i hs)

theorem foldl_events_pred {σ ι : Type}
    (step : σ × List Event → ι → σ × List Event) (P : Event → Prop)
    (hstep : ∀ acc i e, e ∈ (step acc i).2 → e ∈ acc.2 ∨ P e) :
    ∀ (items : List ι) (acc : σ × List Event), (∀ e ∈ acc.2, P e) →
      ∀ e ∈ (items.foldl step acc).2, P e := by
  intro items
  induction items with
  | nil => intro acc hacc e he; exact hacc e he
  | cons i t ih =>
    intro acc hacc e he
    refine ih (step acc i) ?_ e he
    intro e' he'
    rcases hstep acc i e' he' with h | h
    · exact hacc e' h
    · exact h

theorem mem_dedupKeepFirstAux {α : Type} [DecidableEq α] (a : α) :
    ∀ (l seen : List α), a ∈ dedupKeepFirstAux seen l ↔ a ∈ l ∧ a ∉ seen := by
  intro l
  induction l with
  | nil => intro seen; simp [dedupKeepFirstAux]
  | cons x t ih =>
    intro seen
    simp only [dedupKeepFirstAux]
    by_cases hx : x ∈ seen
    · rw [if_pos hx, ih]
      constructor
      · rintro ⟨h1, h2⟩
        exact ⟨List.mem_cons_of_mem x h1, h2⟩
      · rintro ⟨h1, h2⟩
        rcases List.mem_cons.mp h1 with rfl | h1
        · exact absurd hx h2
        · exact ⟨h1, h2⟩
    · rw [if_neg hx]
      simp only [List.mem_cons, ih]
      constructor
      · rintro (rfl | ⟨h1, h2⟩)
        · exact ⟨Or.inl rfl, hx⟩
        · refine ⟨Or.inr h1, ?_⟩
          intro hc
          exact h2 (Or.inr hc)
      · rintro ⟨rfl | h1, h2⟩
        · exact Or.inl rfl
        · by_cases hax : a = x
          · exact Or.inl hax
          · exact Or.inr ⟨h1, fun hc => hc.elim hax h2⟩

theorem mem_uniqueInts (a : Int) (l : List Int) :
    a ∈ uniqueInts l ↔ a ∈ l := by
  rw [uniqueInts, mem_dedupKeepFirstAux]
  simp

theorem chunksOfAux_flatten {α : Type} (n : Nat) (hn : 1 ≤ n) :
    ∀ (fuel : Nat) (l : List α), l.length ≤ fuel →
      (chunksOfAux n fuel l).flatten = l := by
  intro fuel
  induction fuel with
  | zero =>
    intro l hl
    have : l = [] := List.eq_nil_of_length_eq_zero (by omega)
    simp [this, chunksOfAux]
  | succ f ih =>
    intro l hl
    cases l with
    | nil => simp [chunksOfAux]
    | cons x t =>
      simp only [chunksOfAux, List.flatten_cons]
      have hl' : t.length + 1 ≤ f + 1 := by simpa using hl
      rw [ih ((x :: t).drop n)
        (by simp only [List.length_drop, List.length_cons]; omega)]
      exact List.take_append_drop n (x :: t)

theorem chunksOf_flatten {α : Type} (n : Nat) (hn : 1 ≤ n) (l : List α) :
    (chunksOf n l).flatten = l :=
  chunksOfAux_flatten n hn l.length l le_rfl

/-! ## Concrete inputs for the evaluation theorems -/

/-- A test oracle with fixed positive ids. -/
def dbTest : DB :=
  ⟨fun _ => 1, fun _ => 2, fun _ => 3, fun _ => 4, fun _ => 5,
   fun _ => 7, fun _ => 9⟩

/-- A row whose region/district/city are all empty but with a name and a
category. -/
def rowNoGeo : GisCompany := ⟨['A'], [], [], [], [], [], ['X'], []⟩

/-- A row with a region (so a geo row is produced) but no categories. -/
def rowWithGeo : GisCompany := ⟨['A'], ['R'], [], [], [], [], [], []⟩

/-- C1: evaluation of the loader at the failing input — a batch with one
row whose region, district and city all resolve to no id but whose
name and category do resolve.  The company row is created and its
category id is in the cache, yet the link loop's `continue` on
`geoID == 0` leaves both collectors empty and issues no link insert and
no geo insert; the claim (and spec invariant 4) require a
`company_category` link for this row. -/
theorem C1_code_eval :
    alookup ['A'] (insertWithRetry dbTest initRepo [rowNoGeo]).1.company = some 7 ∧
    alookup ['X'] (insertWithRetry dbTest initRepo [rowNoGeo]).1.category = some 4 ∧
    (insertWithRetry dbTest initRepo [rowNoGeo]).1.companyCategories = [] ∧
    (insertWithRetry dbTest initRepo [rowNoGeo]).1.companyGeos = [] ∧
    (insertWithRetry dbTest initRepo [rowNoGeo]).1.geoCache = [] ∧
    (insertWithRetry dbTest initRepo [rowNoGeo]).2.filter eventIsLinkInsert = [] ∧
    (insertWithRetry dbTest initRepo [rowNoGeo]).2.filter eventIsGeoInsert = [] := by
  decide

/-- C2 counterexample: in a concrete execution the `BEGIN` of the main
transaction (trace position 1) happens BEFORE the first per-dictionary
preload transaction event (trace position 2), refuting "the main
transaction is begun only after all per-dictionary preload transactions
have completed". -/
theorem C2_counterexample :
    (insertWithRetry dbTest initRepo [rowWithGeo]).2.take 3 =
      [Event.sleepRand 100 600, Event.beginMain, Event.beginDict .region] := by
  decide

/-- C8 counterexample: after loading a concrete batch whose single row
has a geo but an empty category list, `Summary.category` is 1 although
no collected company has a category link. -/
theorem C8_counterexample :
    (GetSummary (insertWithRetry dbTest initRepo [rowWithGeo]).1).category = 1 ∧
    ((insertWithRetry dbTest initRepo [rowWithGeo]).1.companyCategories.filter
        (fun p => !p.2.1.isEmpty)).length = 0 := by
  decide

/-! ## Event-shape lemmas for the phases of one attempt -/

theorem eventIsDictTx_not_main (e : Event) (h : eventIsDictTx e = true) :
    eventIsMainStmt e = false := by
  cases e <;> simp_all [eventIsDictTx, eventIsMainStmt]

theorem eventIsDictTx_not_link (e : Event) (h : eventIsDictTx e = true) :
    eventIsLinkInsert e = false := by
  cases e <;> simp_all [eventIsDictTx, eventIsLinkInsert]

theorem loadDictionaryFromDB_events (db : DB) (st : RepoState) (t : DTable)
    (names : List Str) :
    ∀ e ∈ (loadDictionaryFromDB db st t names).2, eventIsDictTx e = true := by
  intro e he
  unfold loadDictionaryFromDB at he
  by_cases hn : names = []
  · rw [if_pos hn] at he
    exact absurd he (List.not_mem_nil e)
  · rw [if_neg hn] at he
    simp only at he
    obtain ⟨c, _, rfl⟩ := List.mem_map.mp he
    rfl

theorem batchInsertDictionary_events (db : DB) (st : RepoState) (t : DTable)
    (names : List Str) :
    ∀ e ∈ (batchInsertDictionary db st t names).2, eventIsDictTx e = true := by
  intro e he
  simp only [batchInsertDictionary] at he
  rcases List.mem_append.mp he with h | h
  · by_cases hn : (names.filter fun n => (alookup n (cacheOf st t)).isNone) = []
    · rw [if_pos hn] at h
      exact absurd h (List.not_mem_nil e)
    · rw [if_neg hn] at h
      rcases List.mem_singleton.mp h with rfl
      rfl
  · exact loadDictionaryFromDB_events db st t names e h

theorem preload_events_shape (db : DB) (st : RepoState)
    (records : List GisCompany) :
    ∀ e ∈ (preloadDictionariesOutsideTx db st records).2,
      eventIsDictTx e = true ∨ e = Event.sleepRand 50 150 := by
  refine foldl_events_pred (preloadStep db records) _ ?_ dictTablesOrder.enum
    (st, []) (by intro e he; exact absurd he (List.not_mem_nil e))
  intro acc it e he
  simp only [preloadStep] at he
  by_cases hn : collectDictNames it.2 records = []
  · rw [if_pos hn] at he
    exact Or.inl he
  · rw [if_neg hn] at he
    simp only at he
    rcases List.mem_append.mp he with h | h
    · rcases List.mem_append.mp h with h | h
      · rcases List.mem_append.mp h with h | h
        · rcases List.mem_append.mp h with h | h
          · exact Or.inl h
          · right
            by_cases hi : 0 < it.1
            · rw [if_pos hi] at h
              right
              exact (List.mem_singleton.mp h)
            · rw [if_neg hi] at h
              exact absurd h (List.not_mem_nil e)
        · right
          left
          rcases List.mem_singleton.mp h with rfl
          rfl
      · exact Or.inr (Or.inl (batchInsertDictionary_events db acc.1 it.2 _ e h))
    · right
      left
      rcases List.mem_singleton.mp h with rfl
      rfl

theorem loadGeoFromDB_events_flags (db : DB) (st : RepoState)
    (gl : List (Str × GeoTriple)) :
    ∀ e ∈ (loadGeoFromDB db st gl).2,
      eventIsDictTx e = false ∧ eventIsLinkInsert e = false := by
  intro e he
  unfold loadGeoFromDB at he
  by_cases hn : gl = []
  · rw [if_pos hn] at he
    exact absurd he (List.not_mem_nil e)
  · rw [if_neg hn] at he
    simp only at he
    rcases List.mem_append.mp he with h | h
    · rcases List.mem_append.mp h with h | h
      · rcases List.mem_singleton.mp h with rfl
        exact ⟨rfl, rfl⟩
      · obtain ⟨c, _, rfl⟩ := List.mem_map.mp h
        exact ⟨rfl, rfl⟩
    · rcases List.mem_singleton.mp h with rfl
      exact ⟨rfl, rfl⟩

theorem batchInsertGeo_events_flags (db : DB) (st : RepoState)
    (records : List GisCompany) :
    ∀ e ∈ (batchInsertGeo db st records).2,
      eventIsDictTx e = false ∧ eventIsLinkInsert e = false := by
  intro e he
  unfold batchInsertGeo at he
  by_cases hn : collectGeoData st records = []
  · rw [if_pos hn] at he
    exact absurd he (List.not_mem_nil e)
  · rw [if_neg hn] at he
    simp only at he
    rcases List.mem_append.mp he with h | h
    · obtain ⟨c, _, rfl⟩ := List.mem_map.mp h
      exact ⟨rfl, rfl⟩
    · exact loadGeoFromDB_events_flags db st _ e h

theorem loadCompaniesFromDB_events_flags (db : DB) (st : RepoState)
    (names : List Str) :
    ∀ e ∈ (loadCompaniesFromDB db st names).2,
      eventIsDictTx e = false ∧ eventIsLinkInsert e = false := by
  intro e he
  unfold loadCompaniesFromDB at he
  by_cases hn :
      (names.filter fun n => !n.isEmpty && (alookup n st.company).isNone) = []
  · rw [if_pos hn] at he
    exact absurd he (List.not_mem_nil e)
  · rw [if_neg hn] at he
    simp only at he
    rcases List.mem_singleton.mp he with rfl
    exact ⟨rfl, rfl⟩

theorem batchInsertCompanies_events_flags (db : DB) (st : RepoState)
    (records : List GisCompany) :
    ∀ e ∈ (batchInsertCompanies db st records).2,
      eventIsDictTx e = false ∧ eventIsLinkInsert e = false := by
  intro e he
  unfold batchInsertCompanies at he
  by_cases hn : dedupKeepFirst
      ((records.map GisCompany.name).filter
        (fun n => !n.isEmpty && (alookup n st.company).isNone)) = []
  · rw [if_pos hn] at he
    exact absurd he (List.not_mem_nil e)
  · rw [if_neg hn] at he
    simp only at he
    rcases List.mem_cons.mp he with rfl | h
    · exact ⟨rfl, rfl⟩
    · exact loadCompaniesFromDB_events_flags db st _ e h

theorem insertCompanyGeosEvents_shape (st : RepoState) :
    ∀ e ∈ insertCompanyGeosEvents st,
      ∃ ps, e = Event.execInsertLink .geo ps := by
  intro e he
  unfold insertCompanyGeosEvents at he
  by_cases h1 : st.companyGeos = []
  · rw [if_pos h1] at he
    exact absurd he (List.not_mem_nil e)
  · rw [if_neg h1] at he
    simp only at he
    by_cases h2 : flatGeoPairs st.companyGeos = []
    · rw [if_pos h2] at he
      exact absurd he (List.not_mem_nil e)
    · rw [if_neg h2] at he
      obtain ⟨c, _, rfl⟩ := List.mem_map.mp he
      exact ⟨c, rfl⟩

theorem insertCompanyCategoriesEvents_shape (st : RepoState) :
    ∀ e ∈ insertCompanyCategoriesEvents st,
      (∃ ps, e = Event.execInsertLink .category ps) ∨
      (∃ ps, e = Event.execInsertLink .subcategory ps) := by
  intro e he
  unfold insertCompanyCategoriesEvents at he
  by_cases h1 : st.companyCategories = []
  · rw [if_pos h1] at he
    exact absurd he (List.not_mem_nil e)
  · rw [if_neg h1] at he
    simp only at he
    rcases List.mem_append.mp he with h | h
    · by_cases h2 : flatCatPairs st.companyCategories = []
      · rw [if_pos h2] at h
        exact absurd h (List.not_mem_nil e)
      · rw [if_neg h2] at h
        obtain ⟨c, _, rfl⟩ := List.mem_map.mp h
        exact Or.inl ⟨c, rfl⟩
    · by_cases h2 : flatSubPairs st.companyCategories = []
      · rw [if_pos h2] at h
        exact absurd h (List.not_mem_nil e)
      · rw [if_neg h2] at h
        obtain ⟨c, _, rfl⟩ := List.mem_map.mp h
        exact Or.inr ⟨c, rfl⟩

/-- The events the attempt executes on the main transaction after the
preload: FK off, the geo phase, the company phase, the link inserts, FK
on and the commit. -/
def mainTxStmts (db : DB) (st : RepoState) (records : List GisCompany) :
    List Event :=
  let r1 := preloadDictionariesOutsideTx db st records
  let r2 := batchInsertGeo db r1.1 records
  let r3 := batchInsertCompanies db r2.1 records
  let st4 := processLinks r3.1 records
  [Event.execFK false] ++ r2.2 ++ r3.2 ++ insertCompanyGeosEvents st4 ++
    insertCompanyCategoriesEvents st4 ++ [Event.execFK true, Event.commitMain]

/-- C2 (amended): the dictionary preload does run in dedicated
per-dictionary transactions separate from the main transaction, and
every preload event precedes every statement executed on the main
transaction — but the main transaction's `BEGIN` (trace position 1) is
issued BEFORE the preload starts, not after it completes. -/
theorem C2_amended (db : DB) (st : RepoState) (records : List GisCompany) :
    (insertWithRetry db st records).2 =
      [Event.sleepRand 100 600, Event.beginMain] ++
        (preloadDictionariesOutsideTx db st records).2 ++
        mainTxStmts db st records ∧
    (∀ e ∈ (preloadDictionariesOutsideTx db st records).2,
      eventIsMainStmt e = false) ∧
    (∀ e ∈ (preloadDictionariesOutsideTx db st records).2,
      eventIsDictTx e = true ∨ e = Event.sleepRand 50 150) ∧
    (∀ e ∈ mainTxStmts db st records, eventIsDictTx e = false) := by
  refine ⟨?_, ?_, ?_, ?_⟩
  · simp only [insertWithRetry, mainTxStmts, List.append_assoc,
      List.cons_append, List.nil_append]
  · intro e he
    rcases preload_events_shape db st records e he with h | rfl
    · exact eventIsDictTx_not_main e h
    · rfl
  · exact preload_events_shape db st records
  · intro e he
    simp only [mainTxStmts] at he
    rcases List.mem_append.mp he with h | h
    · rcases List.mem_append.mp h with h | h
      · rcases List.mem_append.mp h with h | h
        · rcases List.mem_append.mp h with h | h
          · rcases List.mem_append.mp h with h | h
            · rcases List.mem_singleton.mp h with rfl
              rfl
            · exact (batchInsertGeo_events_flags db _ records e h).1
          · exact (batchInsertCompanies_events_flags db _ records e h).1
        · obtain ⟨ps, rfl⟩ := insertCompanyGeosEvents_shape _ e h
          rfl
      · rcases insertCompanyCategoriesEvents_shape _ e h with ⟨ps, rfl⟩ | ⟨ps, rfl⟩ <;> rfl
    · rcases List.mem_cons.mp h with rfl | h
      · rfl
      · rcases List.mem_singleton.mp h with rfl
        rfl

/-! ## Collector monotonicity and link emission (claim C9) -/

/-- Generic pair flattening of a collector, by a selector into the
entry's payload. -/
def flatPairsBy {β : Type} (f : β → List Int) (l : List (Int × β)) :
    List (Int × Int) :=
  l.flatMap (fun p => (f p.2).map (fun c => (p.1, c)))

theorem flatGeoPairs_eq (l : List (Int × List Int)) :
    flatGeoPairs l = flatPairsBy (fun gs => gs) l := rfl

theorem flatCatPairs_eq (l : List (Int × (List Int × List Int))) :
    flatCatPairs l = flatPairsBy Prod.fst l := rfl

theorem flatSubPairs_eq (l : List (Int × (List Int × List Int))) :
    flatSubPairs l = flatPairsBy Prod.snd l := rfl

theorem flatPairsBy_cons {β : Type} (f : β → List Int) (k : Int) (b : β)
    (l : List (Int × β)) :
    flatPairsBy f ((k, b) :: l) =
      (f b).map (fun c => (k, c)) ++ flatPairsBy f l := by
  simp [flatPairsBy]

theorem alookup_cons {α β : Type} [DecidableEq α] (k k' : α) (v : β)
    (t : List (α × β)) :
    alookup k ((k', v) :: t) = if k = k' then some v else alookup k t := rfl

theorem mem_flatPairsBy_aset {β : Type} (f : β → List Int) (cid : Int) (v : β) :
    ∀ (l : List (Int × β)) (p : Int × Int), p ∈ flatPairsBy f l →
      (∀ b, alookup cid l = some b → ∀ x ∈ f b, x ∈ f v) →
      p ∈ flatPairsBy f (aset cid v l) := by
  intro l
  induction l with
  | nil =>
    intro p hp _
    simp [flatPairsBy] at hp
  | cons q t ih =>
    intro p hp hext
    obtain ⟨k, b⟩ := q
    by_cases hk : cid = k
    · subst hk
      rw [show aset cid v ((cid, b) :: t) = (cid, v) :: t from by simp [aset]]
      rw [flatPairsBy_cons] at hp ⊢
      rcases List.mem_append.mp hp with h | h
      · obtain ⟨x, hx, rfl⟩ := List.mem_map.mp h
        have hbv : ∀ x ∈ f b, x ∈ f v := by
          refine hext b ?_
          rw [alookup_cons, if_pos rfl]
        exact List.mem_append.mpr (Or.inl (List.mem_map.mpr ⟨x, hbv x hx, rfl⟩))
      · exact List.mem_append.mpr (Or.inr h)
    · rw [show aset cid v ((k, b) :: t) = (k, b) :: aset cid v t from by
        simp [aset, hk]]
      rw [flatPairsBy_cons] at hp ⊢
      rcases List.mem_append.mp hp with h | h
      · exact List.mem_append.mpr (Or.inl h)
      · refine List.mem_append.mpr (Or.inr (ih p h ?_))
        intro b' hb'
        refine hext b' ?_
        rw [alookup_cons, if_neg hk]
        exact hb'

theorem collectCompanyGeos_catFrame (s : RepoState) (cid g : Int) :
    (collectCompanyGeos s cid g).companyCategories = s.companyCategories := by
  unfold collectCompanyGeos
  by_cases h : g ∈ (alookup cid s.companyGeos).getD []
  · rw [if_pos h]
  · rw [if_neg h]

theorem collectCompanyCategories_geoFrame (s : RepoState) (cid : Int)
    (cs ss : List Int) :
    (collectCompanyCategories s cid cs ss).companyGeos = s.companyGeos := rfl

theorem collectCompanyGeos_mono (s : RepoState) (cid g : Int) (p : Int × Int)
    (hp : p ∈ flatGeoPairs s.companyGeos) :
    p ∈ flatGeoPairs (collectCompanyGeos s cid g).companyGeos := by
  unfold collectCompanyGeos
  by_cases h : g ∈ (alookup cid s.companyGeos).getD []
  · rw [if_pos h]
    exact hp
  · rw [if_neg h]
    simp only
    rw [flatGeoPairs_eq] at hp ⊢
    refine mem_flatPairsBy_aset _ cid _ _ p hp ?_
    intro b hb x hx
    rw [hb, Option.getD_some]
    exact List.mem_append.mpr (Or.inl hx)

theorem collectCompanyCategories_catMono (s : RepoState) (cid : Int)
    (cs ss : List Int) (p : Int × Int)
    (hp : p ∈ flatCatPairs s.companyCategories) :
    p ∈ flatCatPairs (collectCompanyCategories s cid cs ss).companyCategories := by
  unfold collectCompanyCategories
  simp only
  rw [flatCatPairs_eq] at hp ⊢
  refine mem_flatPairsBy_aset _ cid _ _ p hp ?_
  intro b hb x hx
  rw [hb, Option.getD_some]
  rw [mem_uniqueInts]
  exact List.mem_append.mpr (Or.inl hx)

theorem collectCompanyCategories_subMono (s : RepoState) (cid : Int)
    (cs ss : List Int) (p : Int × Int)
    (hp : p ∈ flatSubPairs s.companyCategories) :
    p ∈ flatSubPairs (collectCompanyCategories s cid cs ss).companyCategories := by
  unfold collectCompanyCategories
  simp only
  rw [flatSubPairs_eq] at hp ⊢
  refine mem_flatPairsBy_aset _ cid _ _ p hp ?_
  intro b hb x hx
  rw [hb, Option.getD_some]
  rw [mem_uniqueInts]
  exact List.mem_append.mpr (Or.inl hx)

theorem processLinkRow_mono (s : RepoState) (r : GisCompany) :
    (∀ p ∈ flatGeoPairs s.companyGeos,
      p ∈ flatGeoPairs (processLinkRow s r).companyGeos) ∧
    (∀ p ∈ flatCatPairs s.companyCategories,
      p ∈ flatCatPairs (processLinkRow s r).companyCategories) ∧
    (∀ p ∈ flatSubPairs s.companyCategories,
      p ∈ flatSubPairs (processLinkRow s r).companyCategories) := by
  unfold processLinkRow
  by_cases h1 : getGeoID s r = 0
  · rw [if_pos h1]
    exact ⟨fun p hp => hp, fun p hp => hp, fun p hp => hp⟩
  · rw [if_neg h1]
    simp only
    by_cases h2 : (alookup r.name s.company).getD 0 = 0
    · rw [if_pos h2]
      exact ⟨fun p hp => hp, fun p hp => hp, fun p hp => hp⟩
    · rw [if_neg h2]
      refine ⟨?_, ?_, ?_⟩
      · intro p hp
        rw [collectCompanyCategories_geoFrame]
        exact collectCompanyGeos_mono s _ _ p hp
      · intro p hp
        apply collectCompanyCategories_catMono
        rw [collectCompanyGeos_catFrame]
        exact hp
      · intro p hp
        apply collectCompanyCategories_subMono
        rw [collectCompanyGeos_catFrame]
        exact hp

theorem processLinks_mono (records : List GisCompany) : ∀ (st : RepoState),
    (∀ p ∈ flatGeoPairs st.companyGeos,
      p ∈ flatGeoPairs (processLinks st records).companyGeos) ∧
    (∀ p ∈ flatCatPairs st.companyCategories,
      p ∈ flatCatPairs (processLinks st records).companyCategories) ∧
    (∀ p ∈ flatSubPairs st.companyCategories,
      p ∈ flatSubPairs (processLinks st records).companyCategories) := by
  induction records with
  | nil =>
    intro st
    exact ⟨fun p hp => hp, fun p hp => hp, fun p hp => hp⟩
  | cons r t ih =>
    intro st
    have hs : processLinks st (r :: t) = processLinks (processLinkRow st r) t := by
      simp [processLinks]
    rw [hs]
    obtain ⟨g1, c1, s1⟩ := processLinkRow_mono st r
    obtain ⟨g2, c2, s2⟩ := ih (processLinkRow st r)
    exact ⟨fun p hp => g2 p (g1 p hp), fun p hp => c2 p (c1 p hp),
      fun p hp => s2 p (s1 p hp)⟩

/-! Frame lemmas: the collectors are untouched before the link loop. -/

theorem setCache_frame (st : RepoState) (t : DTable) (c : List (Str × Int)) :
    (setCache st t c).companyGeos = st.companyGeos ∧
    (setCache st t c).companyCategories = st.companyCategories := by
  cases t <;> exact ⟨rfl, rfl⟩

theorem loadDictionaryFromDB_frame (db : DB) (st : RepoState) (t : DTable)
    (names : List Str) :
    (loadDictionaryFromDB db st t names).1.companyGeos = st.companyGeos ∧
    (loadDictionaryFromDB db st t names).1.companyCategories =
      st.companyCategories := by
  unfold loadDictionaryFromDB
  by_cases hn : names = []
  · rw [if_pos hn]
    exact ⟨rfl, rfl⟩
  · rw [if_neg hn]
    exact setCache_frame st t _

theorem batchInsertDictionary_frame (db : DB) (st : RepoState) (t : DTable)
    (names : List Str) :
    (batchInsertDictionary db st t names).1.companyGeos = st.companyGeos ∧
    (batchInsertDictionary db st t names).1.companyCategories =
      st.companyCategories := by
  simp only [batchInsertDictionary]
  exact loadDictionaryFromDB_frame db st t names

theorem preload_frame (db : DB) (st : RepoState) (records : List GisCompany) :
    (preloadDictionariesOutsideTx db st records).1.companyGeos =
      st.companyGeos ∧
    (preloadDictionariesOutsideTx db st records).1.companyCategories =
      st.companyCategories := by
  refine foldl_preserve
    (fun acc : RepoState × List Event =>
      acc.1.companyGeos = st.companyGeos ∧
      acc.1.companyCategories = st.companyCategories)
    (preloadStep db records) ?_ dictTablesOrder.enum (st, []) ⟨rfl, rfl⟩
  intro acc it hacc
  unfold preloadStep
  by_cases hn : collectDictNames it.2 records = []
  · rw [if_pos hn]
    exact hacc
  · rw [if_neg hn]
    simp only
    obtain ⟨h1, h2⟩ := batchInsertDictionary_frame db acc.1 it.2
      (collectDictNames it.2 records)
    exact ⟨h1.trans hacc.1, h2.trans hacc.2⟩

theorem batchInsertGeo_frame (db : DB) (st : RepoState)
    (records : List GisCompany) :
    (batchInsertGeo db st records).1.companyGeos = st.companyGeos ∧
    (batchInsertGeo db st records).1.companyCategories =
      st.companyCategories := by
  unfold batchInsertGeo
  by_cases hn : collectGeoData st records = []
  · rw [if_pos hn]
    exact ⟨rfl, rfl⟩
  · rw [if_neg hn]
    simp only
    unfold loadGeoFromDB
    rw [if_neg hn]
    exact ⟨rfl, rfl⟩

theorem loadCompaniesFromDB_frame (db : DB) (st : RepoState)
    (names : List Str) :
    (loadCompaniesFromDB db st names).1.companyGeos = st.companyGeos ∧
    (loadCompaniesFromDB db st names).1.companyCategories =
      st.companyCategories := by
  unfold loadCompaniesFromDB
  by_cases hn :
      (names.filter fun n => !n.isEmpty && (alookup n st.company).isNone) = []
  · rw [if_pos hn]
    exact ⟨rfl, rfl⟩
  · rw [if_neg hn]
    simp only
    refine foldl_preserve
      (fun s : RepoState =>
        s.companyGeos = st.companyGeos ∧
        s.companyCategories = st.companyCategories) _ ?_ _ st ⟨rfl, rfl⟩
    intro s n hs
    by_cases hc : (alookup n s.company).isSome
    · rw [if_pos hc]
      exact hs
    · rw [if_neg hc]
      exact hs

theorem batchInsertCompanies_frame (db : DB) (st : RepoState)
    (records : List GisCompany) :
    (batchInsertCompanies db st records).1.companyGeos = st.companyGeos ∧
    (batchInsertCompanies db st records).1.companyCategories =
      st.companyCategories := by
  unfold batchInsertCompanies
  by_cases hn : dedupKeepFirst
      ((records.map GisCompany.name).filter
        (fun n => !n.isEmpty && (alookup n st.company).isNone)) = []
  · rw [if_pos hn]
    exact ⟨rfl, rfl⟩
  · rw [if_neg hn]
    simp only
    exact loadCompaniesFromDB_frame db st _

/-! Emission lemmas: what the link-insert phase issues. -/

theorem linkPairsIssued_nil (t : LinkTable) : linkPairsIssued t [] = [] := rfl

theorem linkPairsIssued_cons (t : LinkTable) (e : Event) (evs : List Event) :
    linkPairsIssued t (e :: evs) =
      eventLinkPairs t e ++ linkPairsIssued t evs := by
  simp [linkPairsIssued]

theorem linkPairsIssued_append (t : LinkTable) (evs1 evs2 : List Event) :
    linkPairsIssued t (evs1 ++ evs2) =
      linkPairsIssued t evs1 ++ linkPairsIssued t evs2 := by
  simp [linkPairsIssued]

theorem eventLinkPairs_nil_of_not_link (t : LinkTable) (e : Event)
    (h : eventIsLinkInsert e = false) : eventLinkPairs t e = [] := by
  cases e <;> simp_all [eventIsLinkInsert, eventLinkPairs]

theorem linkPairsIssued_eq_nil (t : LinkTable) (evs : List Event)
    (h : ∀ e ∈ evs, eventLinkPairs t e = []) : linkPairsIssued t evs = [] := by
  induction evs with
  | nil => rfl
  | cons e tl ih =>
    rw [linkPairsIssued_cons, h e (List.mem_cons_self e tl), List.nil_append]
    exact ih (fun e' he' => h e' (List.mem_cons_of_mem e he'))

theorem linkPairsIssued_map (t t' : LinkTable) (cs : List (List (Int × Int))) :
    linkPairsIssued t (cs.map (Event.execInsertLink t')) =
      if t' = t then cs.flatten else [] := by
  induction cs with
  | nil => by_cases h : t' = t <;> simp [h, linkPairsIssued]
  | cons c cst ih =>
    rw [List.map_cons, linkPairsIssued_cons, ih]
    by_cases h : t' = t
    · simp [eventLinkPairs, h]
    · simp [eventLinkPairs, h]

theorem linkPairsIssued_geoEvents (st : RepoState) (t : LinkTable) :
    linkPairsIssued t (insertCompanyGeosEvents st) =
      if t = .geo then flatGeoPairs st.companyGeos else [] := by
  unfold insertCompanyGeosEvents
  by_cases h1 : st.companyGeos = []
  · rw [if_pos h1, h1]
    by_cases ht : t = .geo <;> simp [ht, linkPairsIssued, flatGeoPairs]
  · rw [if_neg h1]
    simp only
    by_cases h2 : flatGeoPairs st.companyGeos = []
    · rw [if_pos h2, h2]
      by_cases ht : t = .geo <;> simp [ht, linkPairsIssued]
    · rw [if_neg h2, linkPairsIssued_map]
      by_cases ht : t = .geo
      · rw [if_pos (by rw [ht]), if_pos ht]
        exact chunksOf_flatten pivotBatchSize (by norm_num [pivotBatchSize]) _
      · rw [if_neg (fun h => ht h.symm), if_neg ht]

theorem linkPairsIssued_catEvents (st : RepoState) (t : LinkTable) :
    linkPairsIssued t (insertCompanyCategoriesEvents st) =
      (if t = .category then flatCatPairs st.companyCategories else []) ++
      (if t = .subcategory then flatSubPairs st.companyCategories else []) := by
  unfold insertCompanyCategoriesEvents
  by_cases h1 : st.companyCategories = []
  · rw [if_pos h1, h1]
    by_cases ht : t = .category <;> by_cases ht2 : t = .subcategory <;>
      simp_all [linkPairsIssued, flatCatPairs, flatSubPairs]
  · rw [if_neg h1]
    simp only
    rw [linkPairsIssued_append]
    congr 1
    · by_cases h2 : flatCatPairs st.companyCategories = []
      · rw [if_pos h2, h2]
        by_cases ht : t = .category <;> simp [ht, linkPairsIssued]
      · rw [if_neg h2, linkPairsIssued_map]
        by_cases ht : t = .category
        · rw [if_pos (by rw [ht]), if_pos ht]
          exact chunksOf_flatten pivotBatchSize (by norm_num [pivotBatchSize]) _
        · rw [if_neg (fun h => ht h.symm), if_neg ht]
    · by_cases h2 : flatSubPairs st.companyCategories = []
      · rw [if_pos h2, h2]
        by_cases ht : t = .subcategory <;> simp [ht, linkPairsIssued]
      · rw [if_neg h2, linkPairsIssued_map]
        by_cases ht : t = .subcategory
        · rw [if_pos (by rw [ht]), if_pos ht]
          exact chunksOf_flatten pivotBatchSize (by norm_num [pivotBatchSize]) _
        · rw [if_neg (fun h => ht h.symm), if_neg ht]

theorem linkPairsIssued_preload (db : DB) (st : RepoState)
    (records : List GisCompany) (t : LinkTable) :
    linkPairsIssued t (preloadDictionariesOutsideTx db st records).2 = [] := by
  refine linkPairsIssued_eq_nil t _ ?_
  intro e he
  rcases preload_events_shape db st records e he with h | rfl
  · exact eventLinkPairs_nil_of_not_link t e (eventIsDictTx_not_link e h)
  · rfl

theorem linkPairsIssued_geoPhase (db : DB) (st : RepoState)
    (records : List GisCompany) (t : LinkTable) :
    linkPairsIssued t (batchInsertGeo db st records).2 = [] := by
  refine linkPairsIssued_eq_nil t _ ?_
  intro e he
  exact eventLinkPairs_nil_of_not_link t e
    (batchInsertGeo_events_flags db st records e he).2

theorem linkPairsIssued_companyPhase (db : DB) (st : RepoState)
    (records : List GisCompany) (t : LinkTable) :
    linkPairsIssued t (batchInsertCompanies db st records).2 = [] := by
  refine linkPairsIssued_eq_nil t _ ?_
  intro e he
  exact eventLinkPairs_nil_of_not_link t e
    (batchInsertCompanies_events_flags db st records e he).2

/-- The full-trace emission per link table. -/
theorem linkPairsIssued_trace (db : DB) (st : RepoState)
    (records : List GisCompany) (t : LinkTable) :
    linkPairsIssued t (insertWithRetry db st records).2 =
      (if t = .geo then
        flatGeoPairs (insertWithRetry db st records).1.companyGeos else []) ++
      (if t = .category then
        flatCatPairs (insertWithRetry db st records).1.companyCategories
       else []) ++
      (if t = .subcategory then
        flatSubPairs (insertWithRetry db st records).1.companyCategories
       else []) := by
  show linkPairsIssued t
      ([Event.sleepRand 100 600, Event.beginMain] ++
        (preloadDictionariesOutsideTx db st records).2 ++ [Event.execFK false] ++
        (batchInsertGeo db (preloadDictionariesOutsideTx db st records).1
          records).2 ++
        (batchInsertCompanies db
          (batchInsertGeo db (preloadDictionariesOutsideTx db st records).1
            records).1 records).2 ++
        insertCompanyGeosEvents (insertWithRetry db st records).1 ++
        insertCompanyCategoriesEvents (insertWithRetry db st records).1 ++
        [Event.execFK true, Event.commitMain]) = _
  rw [linkPairsIssued_append, linkPairsIssued_append, linkPairsIssued_append,
    linkPairsIssued_append, linkPairsIssued_append, linkPairsIssued_append,
    linkPairsIssued_append]
  rw [linkPairsIssued_preload, linkPairsIssued_geoPhase,
    linkPairsIssued_companyPhase, linkPairsIssued_geoEvents,
    linkPairsIssued_catEvents]
  have h1 : linkPairsIssued t [Event.sleepRand 100 600, Event.beginMain] = [] := rfl
  have h2 : linkPairsIssued t [Event.execFK false] = [] := rfl
  have h3 : linkPairsIssued t [Event.execFK true, Event.commitMain] = [] := rfl
  rw [h1, h2, h3]
  simp [List.append_assoc]

/-- C9: the two link collectors are never cleared — every pair present
before an `Insert` attempt is still present afterwards (monotone
growth), the attempt issues exactly the flattening of the collector as
insert-ignore pairs for each link table, and hence every previously
collected pair is re-issued by every subsequent call. -/
theorem C9_collectors_monotone (db : DB) (st : RepoState)
    (records : List GisCompany) :
    (∀ p ∈ flatGeoPairs st.companyGeos,
      p ∈ flatGeoPairs (insertWithRetry db st records).1.companyGeos) ∧
    (∀ p ∈ flatCatPairs st.companyCategories,
      p ∈ flatCatPairs (insertWithRetry db st records).1.companyCategories) ∧
    (∀ p ∈ flatSubPairs st.companyCategories,
      p ∈ flatSubPairs (insertWithRetry db st records).1.companyCategories) ∧
    linkPairsIssued .geo (insertWithRetry db st records).2 =
      flatGeoPairs (insertWithRetry db st records).1.companyGeos ∧
    linkPairsIssued .category (insertWithRetry db st records).2 =
      flatCatPairs (insertWithRetry db st records).1.companyCategories ∧
    linkPairsIssued .subcategory (insertWithRetry db st records).2 =
      flatSubPairs (insertWithRetry db st records).1.companyCategories ∧
    (∀ p ∈ flatGeoPairs st.companyGeos,
      p ∈ linkPairsIssued .geo (insertWithRetry db st records).2) ∧
    (∀ p ∈ flatCatPairs st.companyCategories,
      p ∈ linkPairsIssued .category (insertWithRetry db st records).2) ∧
    (∀ p ∈ flatSubPairs st.companyCategories,
      p ∈ linkPairsIssued .subcategory (insertWithRetry db st records).2) := by
  have hframe3 :
      (batchInsertCompanies db (batchInsertGeo db
        (preloadDictionariesOutsideTx db st records).1 records).1
        records).1.companyGeos = st.companyGeos ∧
      (batchInsertCompanies db (batchInsertGeo db
        (preloadDictionariesOutsideTx db st records).1 records).1
        records).1.companyCategories = st.companyCategories := by
    obtain ⟨a1, a2⟩ := preload_frame db st records
    obtain ⟨b1, b2⟩ := batchInsertGeo_frame db
      (preloadDictionariesOutsideTx db st records).1 records
    obtain ⟨c1, c2⟩ := batchInsertCompanies_frame db
      (batchInsertGeo db (preloadDictionariesOutsideTx db st records).1
        records).1 records
    exact ⟨c1.trans (b1.trans a1), c2.trans (b2.trans a2)⟩
  have hfin : (insertWithRetry db st records).1 =
      processLinks (batchInsertCompanies db (batchInsertGeo db
        (preloadDictionariesOutsideTx db st records).1 records).1 records).1
        records := rfl
  obtain ⟨mg, mc, ms⟩ := processLinks_mono records
    (batchInsertCompanies db (batchInsertGeo db
      (preloadDictionariesOutsideTx db st records).1 records).1 records).1
  have H1 : ∀ p ∈ flatGeoPairs st.companyGeos,
      p ∈ flatGeoPairs (insertWithRetry db st records).1.companyGeos := by
    intro p hp
    rw [hfin]
    refine mg p ?_
    rw [hframe3.1]
    exact hp
  have H2 : ∀ p ∈ flatCatPairs st.companyCategories,
      p ∈ flatCatPairs (insertWithRetry db st records).1.companyCategories := by
    intro p hp
    rw [hfin]
    refine mc p ?_
    rw [hframe3.2]
    exact hp
  have H3 : ∀ p ∈ flatSubPairs st.companyCategories,
      p ∈ flatSubPairs (insertWithRetry db st records).1.companyCategories := by
    intro p hp
    rw [hfin]
    refine ms p ?_
    rw [hframe3.2]
    exact hp
  have H4 : linkPairsIssued .geo (insertWithRetry db st records).2 =
      flatGeoPairs (insertWithRetry db st records).1.companyGeos := by
    rw [linkPairsIssued_trace]
    simp
  have H5 : linkPairsIssued .category (insertWithRetry db st records).2 =
      flatCatPairs (insertWithRetry db st records).1.companyCategories := by
    rw [linkPairsIssued_trace]
    simp
  have H6 : linkPairsIssued .subcategory (insertWithRetry db st records).2 =
      flatSubPairs (insertWithRetry db st records).1.companyCategories := by
    rw [linkPairsIssued_trace]
    simp
  refine ⟨H1, H2, H3, H4, H5, H6, ?_, ?_, ?_⟩
  · intro p hp
    rw [H4]
    exact H1 p hp
  · intro p hp
    rw [H5]
    exact H2 p hp
  · intro p hp
    rw [H6]
    exact H3 p hp

/-- A state that already carries collected link pairs from earlier
batches. -/
def stCarried : RepoState :=
  ⟨[], [], [], [], [], [], [], [(7, [9])], [(7, ([4], []))], 0, []⟩

/-- Witness for C9: a pair collected by an earlier batch is re-issued by
a later (here: empty) `Insert` call. -/
theorem C9_witness :
    (7, 9) ∈ flatGeoPairs stCarried.companyGeos ∧
    (7, 9) ∈ linkPairsIssued .geo (insertWithRetry dbTest stCarried []).2 :=
  ⟨by decide,
   (C9_collectors_monotone dbTest stCarried []).2.2.2.2.2.2.1 (7, 9) (by decide)⟩

/-! ## Key-distinctness invariants and the Summary (claim C8) -/

theorem keys_aset {α β : Type} [DecidableEq α] (k : α) (v : β) :
    ∀ l : List (α × β), (aset k v l).map Prod.fst =
      (if k ∈ l.map Prod.fst then l.map Prod.fst else l.map Prod.fst ++ [k]) := by
  intro l
  induction l with
  | nil => simp [aset]
  | cons q t ih =>
    obtain ⟨k', v'⟩ := q
    by_cases h : k = k'
    · subst h
      rw [show aset k v ((k, v') :: t) = (k, v) :: t from by simp [aset]]
      rw [if_pos (by simp)]
      simp
    · rw [show aset k v ((k', v') :: t) = (k', v') :: aset k v t from by
        simp [aset, h]]
      simp only [List.map_cons, ih]
      by_cases hm : k ∈ t.map Prod.fst
      · rw [if_pos hm, if_pos (by simp [hm])]
      · rw [if_neg hm, if_neg (by simp [hm, h])]
        simp

theorem nodupKeys_aset {α β : Type} [DecidableEq α] {l : List (α × β)}
    (k : α) (v : β) (h : NodupKeys l) : NodupKeys (aset k v l) := by
  unfold NodupKeys at *
  rw [keys_aset]
  by_cases hm : k ∈ l.map Prod.fst
  · rw [if_pos hm]
    exact h
  · rw [if_neg hm]
    rw [List.nodup_append]
    refine ⟨h, List.nodup_singleton k, ?_⟩
    intro a ha hb
    rw [List.mem_singleton] at hb
    subst hb
    exact hm ha

theorem nodupKeys_foldl_aset {α β γ : Type} [DecidableEq α]
    (f : γ → α) (g : γ → β) :
    ∀ (items : List γ) (c : List (α × β)), NodupKeys c →
      NodupKeys (items.foldl (fun acc x => aset (f x) (g x) acc) c) := by
  intro items
  induction items with
  | nil => intro c hc; exact hc
  | cons x t ih => intro c hc; exact ih _ (nodupKeys_aset (f x) (g x) hc)

/-- All association-list components of the repository state have
pairwise-distinct keys. -/
def StateWF (st : RepoState) : Prop :=
  NodupKeys st.region ∧ NodupKeys st.district ∧ NodupKeys st.city ∧
  NodupKeys st.category ∧ NodupKeys st.subcategory ∧ NodupKeys st.company ∧
  NodupKeys st.geoCache ∧ NodupKeys st.companyGeos ∧
  NodupKeys st.companyCategories

theorem stateWF_init : StateWF initRepo := by
  refine ⟨?_, ?_, ?_, ?_, ?_, ?_, ?_, ?_, ?_⟩ <;> simp [initRepo, NodupKeys]

theorem cacheOf_wf (st : RepoState) (t : DTable) (h : StateWF st) :
    NodupKeys (cacheOf st t) := by
  obtain ⟨h1, h2, h3, h4, h5, _, _, _, _⟩ := h
  cases t <;> assumption

theorem stateWF_setCache (st : RepoState) (t : DTable) (c : List (Str × Int))
    (h : StateWF st) (hc : NodupKeys c) : StateWF (setCache st t c) := by
  obtain ⟨h1, h2, h3, h4, h5, h6, h7, h8, h9⟩ := h
  cases t
  · exact ⟨hc, h2, h3, h4, h5, h6, h7, h8, h9⟩
  · exact ⟨h1, hc, h3, h4, h5, h6, h7, h8, h9⟩
  · exact ⟨h1, h2, hc, h4, h5, h6, h7, h8, h9⟩
  · exact ⟨h1, h2, h3, hc, h5, h6, h7, h8, h9⟩
  · exact ⟨h1, h2, h3, h4, hc, h6, h7, h8, h9⟩

theorem stateWF_loadDict (db : DB) (st : RepoState) (t : DTable)
    (names : List Str) (h : StateWF st) :
    StateWF (loadDictionaryFromDB db st t names).1 := by
  unfold loadDictionaryFromDB
  by_cases hn : names = []
  · rw [if_pos hn]
    exact h
  · rw [if_neg hn]
    refine stateWF_setCache st t _ h ?_
    exact nodupKeys_foldl_aset (fun n => n) (fun n => dbOf db t n) names _
      (cacheOf_wf st t h)

theorem stateWF_batchInsertDictionary (db : DB) (st : RepoState) (t : DTable)
    (names : List Str) (h : StateWF st) :
    StateWF (batchInsertDictionary db st t names).1 := by
  simp only [batchInsertDictionary]
  exact stateWF_loadDict db st t names h

theorem stateWF_preload (db : DB) (st : RepoState) (records : List GisCompany)
    (h : StateWF st) :
    StateWF (preloadDictionariesOutsideTx db st records).1 := by
  refine foldl_preserve (fun acc : RepoState × List Event => StateWF acc.1)
    (preloadStep db records) ?_ dictTablesOrder.enum (st, []) h
  intro acc it hacc
  unfold preloadStep
  by_cases hn : collectDictNames it.2 records = []
  · rw [if_pos hn]
    exact hacc
  · rw [if_neg hn]
    exact stateWF_batchInsertDictionary db acc.1 it.2 _ hacc

theorem stateWF_batchInsertGeo (db : DB) (st : RepoState)
    (records : List GisCompany) (h : StateWF st) :
    StateWF (batchInsertGeo db st records).1 := by
  unfold batchInsertGeo
  by_cases hn : collectGeoData st records = []
  · rw [if_pos hn]
    exact h
  · rw [if_neg hn]
    simp only
    unfold loadGeoFromDB
    rw [if_neg hn]
    obtain ⟨h1, h2, h3, h4, h5, h6, h7, h8, h9⟩ := h
    exact ⟨h1, h2, h3, h4, h5, h6,
      nodupKeys_foldl_aset Prod.fst (fun p => db.geoId p.2) _ _ h7, h8, h9⟩

theorem stateWF_loadCompanies (db : DB) (st : RepoState) (names : List Str)
    (h : StateWF st) : StateWF (loadCompaniesFromDB db st names).1 := by
  unfold loadCompaniesFromDB
  by_cases hn :
      (names.filter fun n => !n.isEmpty && (alookup n st.company).isNone) = []
  · rw [if_pos hn]
    exact h
  · rw [if_neg hn]
    simp only
    refine foldl_preserve StateWF _ ?_ _ st h
    intro s n hs
    by_cases hc : (alookup n s.company).isSome
    · rw [if_pos hc]
      exact hs
    · rw [if_neg hc]
      obtain ⟨h1, h2, h3, h4, h5, h6, h7, h8, h9⟩ := hs
      exact ⟨h1, h2, h3, h4, h5, nodupKeys_aset n _ h6, h7, h8, h9⟩

theorem stateWF_batchInsertCompanies (db : DB) (st : RepoState)
    (records : List GisCompany) (h : StateWF st) :
    StateWF (batchInsertCompanies db st records).1 := by
  unfold batchInsertCompanies
  by_cases hn : dedupKeepFirst
      ((records.map GisCompany.name).filter
        (fun n => !n.isEmpty && (alookup n st.company).isNone)) = []
  · rw [if_pos hn]
    exact h
  · rw [if_neg hn]
    exact stateWF_loadCompanies db st _ h

theorem stateWF_collectGeos (s : RepoState) (cid g : Int) (h : StateWF s) :
    StateWF (collectCompanyGeos s cid g) := by
  unfold collectCompanyGeos
  by_cases hm : g ∈ (alookup cid s.companyGeos).getD []
  · rw [if_pos hm]
    exact h
  · rw [if_neg hm]
    obtain ⟨h1, h2, h3, h4, h5, h6, h7, h8, h9⟩ := h
    exact ⟨h1, h2, h3, h4, h5, h6, h7, nodupKeys_aset cid _ h8, h9⟩

theorem stateWF_collectCats (s : RepoState) (cid : Int) (cs ss : List Int)
    (h : StateWF s) : StateWF (collectCompanyCategories s cid cs ss) := by
  unfold collectCompanyCategories
  obtain ⟨h1, h2, h3, h4, h5, h6, h7, h8, h9⟩ := h
  exact ⟨h1, h2, h3, h4, h5, h6, h7, h8, nodupKeys_aset cid _ h9⟩

theorem stateWF_processLinks (records : List GisCompany) (st : RepoState)
    (h : StateWF st) : StateWF (processLinks st records) := by
  refine foldl_preserve StateWF processLinkRow ?_ records st h
  intro s r hs
  unfold processLinkRow
  by_cases h1 : getGeoID s r = 0
  · rw [if_pos h1]
    exact hs
  · rw [if_neg h1]
    simp only
    by_cases h2 : (alookup r.name s.company).getD 0 = 0
    · rw [if_pos h2]
      exact hs
    · rw [if_neg h2]
      exact stateWF_collectCats _ _ _ _ (stateWF_collectGeos s _ _ hs)

theorem stateWF_insertWithRetry (db : DB) (st : RepoState)
    (records : List GisCompany) (h : StateWF st) :
    StateWF (insertWithRetry db st records).1 :=
  stateWF_processLinks records _
    (stateWF_batchInsertCompanies db _ records
      (stateWF_batchInsertGeo db _ records (stateWF_preload db st records h)))

/-- The loader's whole lifetime: a sequence of `Insert` calls from the
freshly constructed repository. -/
def runBatches (db : DB) (batches : List (List GisCompany)) : RepoState :=
  batches.foldl (fun s b => (insertWithRetry db s b).1) initRepo

theorem stateWF_runBatches (db : DB) (batches : List (List GisCompany)) :
    StateWF (runBatches db batches) := by
  refine foldl_preserve StateWF _ ?_ batches initRepo stateWF_init
  intro s b hs
  exact stateWF_insertWithRetry db s b hs

/-- C8 (amended): at every point of the loader's lifetime,
`Summary.category` equals the number of DISTINCT company ids present in
the `companyCategories` collector — i.e. every company id that was
passed to `collectCompanyCategories` counts, including those collected
with an empty category-id list (see `C8_counterexample`); and
`Summary.subcategory` / `region` / `district` / `city` equal the number
of distinct names in the respective caches (their sizes). -/
theorem C8_amended (db : DB) (batches : List (List GisCompany)) :
    (GetSummary (runBatches db batches)).category =
      ((runBatches db batches).companyCategories.map Prod.fst).toFinset.card ∧
    (GetSummary (runBatches db batches)).subcategory =
      ((runBatches db batches).subcategory.map Prod.fst).toFinset.card ∧
    (GetSummary (runBatches db batches)).region =
      ((runBatches db batches).region.map Prod.fst).toFinset.card ∧
    (GetSummary (runBatches db batches)).district =
      ((runBatches db batches).district.map Prod.fst).toFinset.card ∧
    (GetSummary (runBatches db batches)).city =
      ((runBatches db batches).city.map Prod.fst).toFinset.card := by
  obtain ⟨h1, h2, h3, h4, h5, h6, h7, h8, h9⟩ := stateWF_runBatches db batches
  refine ⟨?_, ?_, ?_, ?_, ?_⟩
  · rw [List.toFinset_card_of_nodup h9, List.length_map]
    rfl
  · rw [List.toFinset_card_of_nodup h5, List.length_map]
    rfl
  · rw [List.toFinset_card_of_nodup h1, List.length_map]
    rfl
  · rw [List.toFinset_card_of_nodup h2, List.length_map]
    rfl
  · rw [List.toFinset_card_of_nodup h3, List.length_map]
    rfl

/-! ## The `Insert` retry loop (claim C4)

`Insert` is modelled over an attempt oracle `att : Nat → Option Str`
giving the error (if any) returned by the k-th call of
`insertWithRetry`; the loop logic below is translated from the Go
source. -/

def sDeadlock1 : Str := ("Deadlock").toList

def sDeadlock2 : Str := ("deadlock").toList

def sError1213 : Str := ("Error 1213").toList

/-- The deadlock-indicator check of `Insert` (substring match). -/
def isDeadlockErr (e : Str) : Bool :=
  strContains e sDeadlock1 || strContains e sDeadlock2 ||
    strContains e sError1213

/-- The backoff before re-attempt number `attempt`:
`attempt² × 500 ms`, at least 500 ms. -/
def backoffDelay (attempt : Nat) : Nat :=
  let delay := attempt * attempt * 500
  if delay < 500 then 500 else delay

/-- The retry-notice string appended to the errors list before
re-attempt number `attempt + 1`. -/
def retryNotice (attempt : Nat) : Str :=
  ("Повторная попытка импорта (попытка ").toList ++
    natDecimal (attempt + 1) ++ ("/5)").toList

/-- The wrapped error returned when the retry budget is exhausted. -/
def wrapExhausted (e : Str) : Str :=
  ("превышен лимит попыток при импорте: ").toList ++ e

/-- The observable outcome of one `Insert` call: the returned error (if
any), the number of attempts executed, the backoff sleeps performed and
the retry notices appended to the errors list. -/
structure LoopOut where
  result : Option Str
  attempts : Nat
  sleeps : List Nat
  notices : List Str
deriving DecidableEq

def insertLoopAux (att : Nat → Option Str) :
    Nat → Nat → Option Str → List Nat → List Str → LoopOut
  | 0, attempt, lastErr, sleeps, notices =>
    ⟨some (wrapExhausted (lastErr.getD [])), attempt, sleeps, notices⟩
  | rem + 1, attempt, lastErr, sleeps, notices =>
    let sleeps' :=
      if 0 < attempt then sleeps ++ [backoffDelay attempt] else sleeps
    let notices' :=
      if 0 < attempt then notices ++ [retryNotice attempt] else notices
    match att attempt with
    | none => ⟨none, attempt + 1, sleeps', notices'⟩
    | some e =>
      if isDeadlockErr e then
        insertLoopAux att rem (attempt + 1) (some e) sleeps' notices'
      else ⟨some e, attempt + 1, sleeps', notices'⟩

/-- The retry loop of `Insert` (`maxRetries = 5`). -/
def insertRetryLoop (att : Nat → Option Str) : LoopOut :=
  insertLoopAux att 5 0 none [] []

/-- `Insert` itself: an empty batch is a no-op with no attempts. -/
def InsertGo (records : List GisCompany) (att : Nat → Option Str) : LoopOut :=
  if records = [] then ⟨none, 0, [], []⟩ else insertRetryLoop att

/-- Canonical sleeps after the loop stops with `x` executed attempts. -/
def canS (x : Nat) : List Nat :=
  (List.range (x - 1)).map (fun k => backoffDelay (k + 1))

/-- Canonical retry notices after `x` executed attempts. -/
def canN (x : Nat) : List Str :=
  (List.range (x - 1)).map (fun k => retryNotice (k + 1))

theorem canS_succ (a : Nat) (h : 0 < a) :
    canS (a + 1) = canS a ++ [backoffDelay a] := by
  unfold canS
  have h1 : a + 1 - 1 = (a - 1) + 1 := by omega
  rw [h1, List.range_succ, List.map_append, List.map_singleton]
  have h2 : a - 1 + 1 = a := by omega
  rw [h2]

theorem canN_succ (a : Nat) (h : 0 < a) :
    canN (a + 1) = canN a ++ [retryNotice a] := by
  unfold canN
  have h1 : a + 1 - 1 = (a - 1) + 1 := by omega
  rw [h1, List.range_succ, List.map_append, List.map_singleton]
  have h2 : a - 1 + 1 = a := by omega
  rw [h2]

/-- The retry-policy contract of the loop. -/
def LoopSpec (att : Nat → Option Str) (o : LoopOut) : Prop :=
  (1 ≤ o.attempts ∧ o.attempts ≤ 5) ∧
  (∀ k, k + 1 < o.attempts → ∃ e, att k = some e ∧ isDeadlockErr e = true) ∧
  o.sleeps = canS o.attempts ∧
  o.notices = canN o.attempts ∧
  (∀ k e, k < o.attempts → att k = some e → isDeadlockErr e = false →
    o.result = some e ∧ o.attempts = k + 1) ∧
  (o.result = none → att (o.attempts - 1) = none)

theorem insertLoopAux_spec (att : Nat → Option Str) :
    ∀ (rem : Nat), ∀ (attempt : Nat) (lastErr : Option Str),
      rem + attempt = 5 →
      (∀ k, k < attempt → ∃ e, att k = some e ∧ isDeadlockErr e = true) →
      LoopSpec att (insertLoopAux att rem attempt lastErr
        (canS attempt) (canN attempt)) := by
  intro rem
  induction rem with
  | zero =>
    intro attempt lastErr h5 hprev
    have ha : attempt = 5 := by omega
    subst ha
    refine ⟨⟨?_, ?_⟩, ?_, rfl, rfl, ?_, ?_⟩
    · show (1 : Nat) ≤ 5
      omega
    · show (5 : Nat) ≤ 5
      omega
    · intro k hk
      have hk' : k + 1 < 5 := hk
      exact hprev k (by omega)
    · intro k e hk hke hde
      obtain ⟨e', he', hde'⟩ := hprev k (show k < 5 from hk)
      rw [hke] at he'
      obtain rfl := Option.some.inj he'
      rw [hde] at hde'
      exact absurd hde' Bool.false_ne_true
    · intro hres
      exact absurd (show some (wrapExhausted (lastErr.getD [])) = none from hres)
        (Option.some_ne_none _)
  | succ rem ih =>
    intro attempt lastErr h5 hprev
    have hS : (if 0 < attempt then canS attempt ++ [backoffDelay attempt]
        else canS attempt) = canS (attempt + 1) := by
      by_cases h : 0 < attempt
      · rw [if_pos h]
        exact (canS_succ attempt h).symm
      · rw [if_neg h]
        have h0 : attempt = 0 := by omega
        subst h0
        rfl
    have hN : (if 0 < attempt then canN attempt ++ [retryNotice attempt]
        else canN attempt) = canN (attempt + 1) := by
      by_cases h : 0 < attempt
      · rw [if_pos h]
        exact (canN_succ attempt h).symm
      · rw [if_neg h]
        have h0 : attempt = 0 := by omega
        subst h0
        rfl
    rcases hatt : att attempt with _ | e
    · simp only [insertLoopAux, hatt]
      rw [hS, hN]
      refine ⟨⟨?_, ?_⟩, ?_, rfl, rfl, ?_, ?_⟩
      · show 1 ≤ attempt + 1
        omega
      · show attempt + 1 ≤ 5
        omega
      · intro k hk
        have hk' : k + 1 < attempt + 1 := hk
        exact hprev k (by omega)
      · intro k e hk hke hde
        have hk' : k < attempt + 1 := hk
        by_cases hka : k < attempt
        · obtain ⟨e', he', hde'⟩ := hprev k hka
          rw [hke] at he'
          obtain rfl := Option.some.inj he'
          rw [hde] at hde'
          exact absurd hde' Bool.false_ne_true
        · have hkeq : k = attempt := by omega
          subst hkeq
          rw [hatt] at hke
          exact absurd hke (by simp)
      · intro _
        show att (attempt + 1 - 1) = none
        simp only [Nat.add_sub_cancel]
        exact hatt
    · by_cases hd : isDeadlockErr e = true
      · simp only [insertLoopAux, hatt]
        rw [if_pos hd, hS, hN]
        refine ih (attempt + 1) (some e) (by omega) ?_
        intro k hk
        by_cases hka : k < attempt
        · exact hprev k hka
        · have hkeq : k = attempt := by omega
          subst hkeq
          exact ⟨e, hatt, hd⟩
      · have hd' : isDeadlockErr e = false := by
          cases h : isDeadlockErr e
          · rfl
          · exact absurd h hd
        simp only [insertLoopAux, hatt]
        rw [if_neg hd, hS, hN]
        refine ⟨⟨?_, ?_⟩, ?_, rfl, rfl, ?_, ?_⟩
        · show 1 ≤ attempt + 1
          omega
        · show attempt + 1 ≤ 5
          omega
        · intro k hk
          have hk' : k + 1 < attempt + 1 := hk
          exact hprev k (by omega)
        · intro k e' hk hke hde
          have hk' : k < attempt + 1 := hk
          by_cases hka : k < attempt
          · obtain ⟨e'', he'', hde''⟩ := hprev k hka
            rw [hke] at he''
            obtain rfl := Option.some.inj he''
            rw [hde] at hde''
            exact absurd hde'' Bool.false_ne_true
          · have hkeq : k = attempt := by omega
            subst hkeq
            rw [hatt] at hke
            obtain rfl := Option.some.inj hke
            exact ⟨rfl, rfl⟩
        · intro hres
          exact absurd (show some e = none from hres) (Option.some_ne_none _)

/-- C4: for every non-empty batch, `Insert` executes at most 5 attempts;
every re-attempt is preceded by a deadlock-indicated failure and by
appending a retry-notice entry; the backoff sleeps are quadratic
starting at 500 ms (`backoffDelay 1 = 500`, `backoffDelay 2 = 2000`,
...); and a failure without a deadlock indicator is returned
immediately, with no further attempts. -/
theorem C4_insert_retry (records : List GisCompany) (att : Nat → Option Str)
    (hne : records ≠ []) :
    1 ≤ (InsertGo records att).attempts ∧
    (InsertGo records att).attempts ≤ 5 ∧
    (∀ k, k + 1 < (InsertGo records att).attempts →
      ∃ e, att k = some e ∧ isDeadlockErr e = true) ∧
    (InsertGo records att).sleeps =
      (List.range ((InsertGo records att).attempts - 1)).map
        (fun k => backoffDelay (k + 1)) ∧
    (InsertGo records att).notices =
      (List.range ((InsertGo records att).attempts - 1)).map
        (fun k => retryNotice (k + 1)) ∧
    (∀ k e, k < (InsertGo records att).attempts → att k = some e →
      isDeadlockErr e = false →
      (InsertGo records att).result = some e ∧
      (InsertGo records att).attempts = k + 1) ∧
    backoffDelay 1 = 500 ∧ backoffDelay 2 = 2000 ∧
    ((InsertGo records att).result = none →
      att ((InsertGo records att).attempts - 1) = none) := by
  have h := insertLoopAux_spec att 5 0 none rfl (by intro k hk; omega)
  have heq : InsertGo records att =
      insertLoopAux att 5 0 none (canS 0) (canN 0) := by
    simp only [InsertGo, if_neg hne]
    rfl
  rw [heq]
  obtain ⟨⟨a1, a2⟩, b, c, d, e2, f⟩ := h
  exact ⟨a1, a2, b, c, d, e2, by decide, by decide, f⟩

/-- An attempt oracle that deadlocks once and then succeeds. -/
def attDeadlockOnce : Nat → Option Str :=
  fun k => if k = 0 then some sDeadlock1 else none

/-- Witness for C4: a batch with one row under an oracle that deadlocks
once — two attempts, one 500 ms backoff, one retry notice, success. -/
theorem C4_witness :
    ([rowNoGeo] : List GisCompany) ≠ [] ∧
    (InsertGo [rowNoGeo] attDeadlockOnce).attempts ≤ 5 ∧
    (InsertGo [rowNoGeo] attDeadlockOnce).sleeps = [500] ∧
    (InsertGo [rowNoGeo] attDeadlockOnce).result = none :=
  ⟨by decide,
   (C4_insert_retry [rowNoGeo] attDeadlockOnce (by decide)).2.1,
   by decide, by decide⟩

/-! ## The Worker consume loop (claims C3 and C7; source: worker.go) -/

def sError1205 : Str := ("Error 1205").toList

def sError2013 : Str := ("Error 2013").toList

def sError2006 : Str := ("Error 2006").toList

def sConnReset : Str := ("connection reset").toList

def sConnRefused : Str := ("connection refused").toList

def sTimeout : Str := ("timeout").toList

def sTempFailure : Str := ("temporary failure").toList

def sFile : Str := ("file").toList

def sLocked : Str := ("locked").toList

def sBusy : Str := ("busy").toList

/-- `isRetryableError`, translated from worker.go (its caller only
invokes it on an actual error, so the `err == nil` guard is the
caller's `procErr = none` case). -/
def isRetryableError (e : Str) : Bool :=
  strContains e sDeadlock1 || strContains e sDeadlock2 ||
  [sError1213, sError1205, sError2013, sError2006, sConnReset, sConnRefused,
    sTimeout, sTempFailure].any (fun p => strContains e p) ||
  (strContains e sFile && (strContains e sLocked || strContains e sBusy))

/-- A header value of an `amqp.Table` as far as `getRetryCount` is
concerned: an `int32`, an `int`, or anything else. -/
inductive HVal
  | hInt32 (n : Int)
  | hInt (n : Int)
  | hOther
deriving DecidableEq

abbrev HTable := List (Str × HVal)

def xRetryKey : Str := ("x-retry-count").toList

/-- `getRetryCount`: 0 for nil headers, a missing key or a non-integer
value; the `int32` and `int` type switches of the Go source. -/
def getRetryCount : Option HTable → Int
  | none => 0
  | some t =>
    match alookup xRetryKey t with
    | some (.hInt32 n) => n
    | some (.hInt n) => n
    | _ => 0

/-- An AMQP delivery, restricted to the fields the loop reads. -/
structure Delivery where
  headers : Option HTable
  body : Str
  priority : Nat
  messageId : Str
deriving DecidableEq

/-- The message republished via `channel.Publish`. -/
structure Publishing where
  exchange : Str
  routingKey : Str
  body : Str
  headers : HTable
  priority : Nat
  timestamp : Nat
  persistent : Bool
deriving DecidableEq

/-- The broker-visible outcome for one delivery; in the republish case
the worker first sleeps `sleepSec` seconds, publishes `pub`, then acks
the original delivery. -/
inductive WorkerOutcome
  | acked
  | republishedThenAcked (pub : Publishing) (sleepSec : Int)
  | nackRequeue
  | nackNoRequeue
deriving DecidableEq

/-- The copy loop `for k, v := range d.Headers` into a fresh table. -/
def copyTable (t : Option HTable) : HTable :=
  (t.getD []).foldl (fun acc kv => aset kv.1 kv.2 acc) []

/-- One iteration of the Worker's consume loop for one delivery
(worker.go `Start`): `procErr` is the result of `processMessage`,
`pubOk` whether the republish succeeded, `now` the wall clock used for
the new timestamp. -/
def handleDelivery (queueName : Str) (now : Nat) (d : Delivery)
    (procErr : Option Str) (pubOk : Bool) : WorkerOutcome :=
  let retryCount := getRetryCount d.headers
  let maxRetries : Int := 10
  match procErr with
  | none => .acked
  | some e =>
    if isRetryableError e && decide (retryCount < maxRetries) then
      let newRetryCount := retryCount + 1
      let newHeaders :=
        aset xRetryKey (.hInt newRetryCount) (copyTable d.headers)
      if pubOk then
        .republishedThenAcked
          ⟨[], queueName, d.body, newHeaders, d.priority, now, true⟩
          newRetryCount
      else .nackRequeue
    else .nackNoRequeue

/-- The per-delivery outcome as claim C3 words it: ack on success;
on a retryable failure with retry count below 10, sleep `(count+1) × 1s`
and republish the original body to the same queue via the default
exchange (empty exchange name) with the same priority, the incremented
`x-retry-count` and a fresh timestamp, then ack — nack-with-requeue only
if the republish fails; otherwise nack without requeue. -/
def workerOutcomeSpec (queueName : Str) (now : Nat) (d : Delivery)
    (procErr : Option Str) (pubOk : Bool) : WorkerOutcome :=
  match procErr with
  | none => .acked
  | some e =>
    let count := getRetryCount d.headers
    if isRetryableError e && decide (count < 10) then
      if pubOk then
        .republishedThenAcked
          ⟨[], queueName, d.body,
            aset xRetryKey (.hInt (count + 1)) (d.headers.getD []),
            d.priority, now, true⟩
          (count + 1)
      else .nackRequeue
    else .nackNoRequeue

theorem aset_append_of_not_mem {α β : Type} [DecidableEq α] (k : α) (v : β) :
    ∀ l : List (α × β), k ∉ l.map Prod.fst → aset k v l = l ++ [(k, v)] := by
  intro l
  induction l with
  | nil => intro; rfl
  | cons q t ih =>
    obtain ⟨k', v'⟩ := q
    intro h
    simp only [List.map_cons, List.mem_cons] at h
    push_neg at h
    rw [show aset k v ((k', v') :: t) = (k', v') :: aset k v t from by
      simp [aset, h.1]]
    rw [ih h.2]
    simp

theorem foldl_aset_copy {β : Type} :
    ∀ (l : List (Str × β)) (acc : List (Str × β)), NodupKeys (acc ++ l) →
      l.foldl (fun a kv => aset kv.1 kv.2 a) acc = acc ++ l := by
  intro l
  induction l with
  | nil => intro acc _; simp
  | cons q t ih =>
    obtain ⟨k, v⟩ := q
    intro acc hd
    simp only [List.foldl_cons]
    have hk : k ∉ acc.map Prod.fst := by
      have hd' := hd
      unfold NodupKeys at hd'
      rw [List.map_append, List.nodup_append] at hd'
      obtain ⟨_, _, hdisj⟩ := hd'
      intro hmem
      exact hdisj hmem (by rw [List.map_cons]; exact List.mem_cons_self _ _)
    rw [aset_append_of_not_mem k v acc hk]
    rw [ih (acc ++ [(k, v)]) (by rw [List.append_cons] at hd; exact hd)]
    rw [← List.append_cons]

theorem copyTable_eq (t : Option HTable) (h : NodupKeys (t.getD [])) :
    copyTable t = t.getD [] := by
  unfold copyTable
  have := foldl_aset_copy (t.getD []) [] (by simpa using h)
  simpa using this

theorem alookup_aset_self {α β : Type} [DecidableEq α] (k : α) (v : β) :
    ∀ l : List (α × β), alookup k (aset k v l) = some v := by
  intro l
  induction l with
  | nil => simp [aset, alookup]
  | cons q t ih =>
    obtain ⟨k', v'⟩ := q
    by_cases h : k = k'
    · subst h
      simp [aset, alookup]
    · rw [show aset k v ((k', v') :: t) = (k', v') :: aset k v t from by
        simp [aset, h]]
      rw [alookup_cons, if_neg h]
      exact ih

theorem getRetryCount_set (t : HTable) (n : Int) :
    getRetryCount (some (aset xRetryKey (.hInt n) t)) = n := by
  simp [getRetryCount, alookup_aset_self]

/-- C3: the Worker's per-delivery behaviour coincides with the claimed
case analysis — exactly one of ack, sleep-republish-ack (with
nack-requeue only on a failed republish), or nack-without-requeue.  The
hypothesis only states that the delivered header table has distinct
keys, which is forced by `amqp.Table` being a Go map. -/
theorem C3_worker_outcome (queueName : Str) (now : Nat) (d : Delivery)
    (procErr : Option Str) (pubOk : Bool)
    (h : NodupKeys (d.headers.getD [])) :
    handleDelivery queueName now d procErr pubOk =
      workerOutcomeSpec queueName now d procErr pubOk := by
  unfold handleDelivery workerOutcomeSpec
  cases procErr with
  | none => rfl
  | some e =>
    simp only
    rw [copyTable_eq d.headers h]

def qMain : Str := ("csv_import_high").toList

/-- A delivery carrying a retry count of 2. -/
def dTest : Delivery :=
  ⟨some [(xRetryKey, .hInt 2)], ("body").toList, 5, ("m1").toList⟩

/-- Witness for C3 at a concrete delivery and a concrete retryable
error. -/
theorem C3_witness :
    NodupKeys (dTest.headers.getD []) ∧
    handleDelivery qMain 42 dTest (some sDeadlock1) true =
      workerOutcomeSpec qMain 42 dTest (some sDeadlock1) true :=
  ⟨by unfold NodupKeys; decide,
   C3_worker_outcome qMain 42 dTest (some sDeadlock1) true
     (by unfold NodupKeys; decide)⟩

/-- The headers produced by one republish (the worker's header bump). -/
def nextHeaders (h : Option HTable) : HTable :=
  aset xRetryKey (.hInt (getRetryCount h + 1)) (copyTable h)

/-- The header table across repeated redeliveries of an always-failing
retryable task, with the broker modelled as delivering the published
headers unchanged; the initial task carries no headers. -/
def trajHeaders : Nat → Option HTable
  | 0 => none
  | k + 1 => some (nextHeaders (trajHeaders k))

theorem getRetryCount_traj : ∀ k : Nat, getRetryCount (trajHeaders k) = (k : Int) := by
  intro k
  induction k with
  | zero => rfl
  | succ k ih =>
    show getRetryCount (some (nextHeaders (trajHeaders k))) = ((k + 1 : Nat) : Int)
    unfold nextHeaders
    rw [getRetryCount_set, ih]
    push_cast
    ring

/-- C7: retry accounting round-trips through republish — writing
`x-retry-count = n` and reading it back with `getRetryCount` yields `n`;
absent headers or an absent key read as 0; along the redelivery
trajectory the count at delivery `k` is exactly `k`; and a permanently
retryable task is republished exactly at deliveries 0..9 (10 times) and
nacked without requeue at delivery 10. -/
theorem C7_retry_roundtrip :
    (∀ (t : HTable) (n : Int),
      getRetryCount (some (aset xRetryKey (.hInt n) t)) = n) ∧
    getRetryCount none = 0 ∧
    (∀ t : HTable, alookup xRetryKey t = none → getRetryCount (some t) = 0) ∧
    (∀ k : Nat, getRetryCount (trajHeaders k) = (k : Int)) ∧
    (∀ (q bdy mid : Str) (pr now : Nat) (e : Str),
      isRetryableError e = true →
      (∀ k : Nat, k < 10 →
        handleDelivery q now ⟨trajHeaders k, bdy, pr, mid⟩ (some e) true =
          .republishedThenAcked
            ⟨[], q, bdy, nextHeaders (trajHeaders k), pr, now, true⟩
            ((k : Int) + 1)) ∧
      handleDelivery q now ⟨trajHeaders 10, bdy, pr, mid⟩ (some e) true =
        .nackNoRequeue) := by
  refine ⟨getRetryCount_set, rfl, ?_, getRetryCount_traj, ?_⟩
  · intro t ht
    simp [getRetryCount, ht]
  · intro q bdy mid pr now e hret
    constructor
    · intro k hk
      have hki : (k : Int) < 10 := by exact_mod_cast hk
      simp only [handleDelivery, getRetryCount_traj, nextHeaders]
      rw [if_pos (by simp [hret, hki])]
      simp
    · have h10 : ¬((10 : Int) < 10) := by omega
      simp only [handleDelivery, getRetryCount_traj]
      rw [if_neg (by simp [h10])]

/-- Witness for C7 at delivery number 3 of the trajectory. -/
theorem C7_witness :
    isRetryableError sDeadlock1 = true ∧
    handleDelivery qMain 42 ⟨trajHeaders 3, ("b").toList, 5, ("m").toList⟩
        (some sDeadlock1) true =
      .republishedThenAcked
        ⟨[], qMain, ("b").toList, nextHeaders (trajHeaders 3), 5, 42, true⟩
        (((3 : Nat) : Int) + 1) :=
  ⟨by decide,
   (C7_retry_roundtrip.2.2.2.2 qMain (("b").toList) (("m").toList) 5 42
       sDeadlock1 (by decide)).1 3 (by decide)⟩

/-! ## `processMessage` and file deletion (claim C6; source: worker.go) -/

def sVarWww : Str := ("/var/www/html/storage").toList

def sCsvDir : Str := ("csv").toList

def sDecodeErrMsg : Str := ("ошибка декодирования задачи").toList

def sNotFoundMsg : Str := (": файл не найден").toList

def sColonSp : Str := (": ").toList

/-- The worker's view of its environment: file existence, the CSV
parser's result per path, and the repository's `Insert` result. -/
structure FSModel where
  present : Str → Bool
  parse : Str → Except Str (List GisCompany)
  insertRes : List GisCompany → Option Str

/-- `strings.Replace(s, old, new, 1)`. -/
def replaceFirst : Str → Str → Str → Str
  | [], old, new => if old = [] then new else []
  | c :: t, old, new =>
    if isPre old (c :: t) then new ++ (c :: t).drop old.length
    else c :: replaceFirst t old new

/-- `filepath.IsAbs`. -/
def isAbsPath (s : Str) : Bool :=
  match s with
  | '/' :: _ => true
  | _ => false

/-- `filepath.Base` (sufficient for the paths the worker handles). -/
def baseName (s : Str) : Str :=
  if s = [] then ['.']
  else
    match ((splitOnChar '/' s).filter (fun p => !p.isEmpty)).getLast? with
    | some p => p
    | none => ['/']

/-- `filepath.Join` on two components (without cleaning). -/
def joinPath (a b : Str) : Str := a ++ '/' :: b

/-- The import-task message body (source: `models.go`). -/
structure ImportTask where
  filePath : Str
  fileName : Str
  fileSize : Nat
  priority : Str
  createdAt : Str
deriving DecidableEq

/-- The file-path fallback chain of `processMessage`: keep an existing
path; otherwise rewrite the PHP storage prefix and, if still relative,
join under `<storage>/csv/<basename>`. -/
def resolvePath (storagePath : Str) (present : Str → Bool) (fp0 : Str) : Str :=
  if present fp0 then fp0
  else
    let fp1 :=
      if strContains fp0 sVarWww then replaceFirst fp0 sVarWww storagePath
      else fp0
    if isAbsPath fp1 then fp1
    else joinPath (joinPath storagePath sCsvDir) (baseName fp1)

/-- The tail of `processMessage` after the path is resolved: parse,
return success WITHOUT deleting when there are zero data rows, else
insert and delete the file on success.  Result:
`(error?, fileDeleted, resolvedPath)`. -/
def runParseInsert (fileName : Str) (fs : FSModel) (filePath : Str) :
    Option Str × Bool × Str :=
  match fs.parse filePath with
  | .error e => (some (fileName ++ sColonSp ++ e), false, filePath)
  | .ok records =>
    if records = [] then (none, false, filePath)
    else
      match fs.insertRes records with
      | some e => (some (fileName ++ sColonSp ++ e), false, filePath)
      | none => (none, true, filePath)

/-- `processMessage`, translated from worker.go. -/
def processMessage (storagePath : Str) (fs : FSModel)
    (task? : Option ImportTask) : Option Str × Bool × Str :=
  match task? with
  | none => (some sDecodeErrMsg, false, [])
  | some task =>
    let fp := resolvePath storagePath fs.present task.filePath
    if fs.present fp then runParseInsert task.fileName fs fp
    else (some (task.fileName ++ sNotFoundMsg), false, fp)

theorem runParseInsert_ok (fn : Str) (fs : FSModel) (fp : Str)
    (hok : (runParseInsert fn fs fp).1 = none) :
    ∃ records, fs.parse (runParseInsert fn fs fp).2.2 = .ok records ∧
      ((runParseInsert fn fs fp).2.1 = true ↔ records ≠ []) := by
  cases hp : fs.parse fp with
  | error e =>
    simp only [runParseInsert, hp] at hok
    exact absurd hok (by simp)
  | ok records =>
    simp only [runParseInsert, hp] at hok ⊢
    by_cases hr : records = []
    · rw [if_pos hr] at hok ⊢
      refine ⟨records, hp, ?_⟩
      subst hr
      simp
    · rw [if_neg hr] at hok ⊢
      cases hi : fs.insertRes records with
      | some e =>
        simp only [hi] at hok
        exact absurd hok (by simp)
      | none =>
        simp only [hi] at hok ⊢
        exact ⟨records, hp, by simp [hr]⟩

def spTest : Str := ("/app/storage").toList

/-- A world in which the file exists and parses to ZERO data rows. -/
def fsZeroRows : FSModel := ⟨fun _ => true, fun _ => .ok [], fun _ => none⟩

/-- A world in which the file exists and parses to one row. -/
def fsOneRow : FSModel :=
  ⟨fun _ => true, fun _ => .ok [rowNoGeo], fun _ => none⟩

def taskTest : ImportTask :=
  ⟨("/a.csv").toList, ("a.csv").toList, 10, ("high").toList, []⟩

/-- C6 counterexample: a task whose file parses to zero data rows is
processed successfully (`processMessage` returns nil, the delivery is
acked) and yet the source file is NOT deleted — the zero-row early
return precedes `os.Remove`. -/
theorem C6_counterexample :
    (processMessage spTest fsZeroRows (some taskTest)).1 = none ∧
    (processMessage spTest fsZeroRows (some taskTest)).2.1 = false := by
  decide

/-- C6 (amended): when processing succeeds, the parse of the resolved
file succeeded, and the file is deleted IF AND ONLY IF the parsed file
contains at least one data row; in the zero-row case `processMessage`
succeeds without deleting the file. -/
theorem C6_amended (storagePath : Str) (fs : FSModel)
    (task? : Option ImportTask)
    (hok : (processMessage storagePath fs task?).1 = none) :
    ∃ records,
      fs.parse (processMessage storagePath fs task?).2.2 = .ok records ∧
      ((processMessage storagePath fs task?).2.1 = true ↔ records ≠ []) := by
  unfold processMessage at hok ⊢
  cases task? with
  | none => exact absurd hok (by simp)
  | some task =>
    simp only at hok ⊢
    by_cases h1 :
        fs.present (resolvePath storagePath fs.present task.filePath) = true
    · rw [if_pos h1] at hok ⊢
      exact runParseInsert_ok task.fileName fs _ hok
    · rw [if_neg h1] at hok
      exact absurd hok (by simp)

/-- Witness for C6 at a concrete one-row world: success and the file is
deleted. -/
theorem C6_witness :
    (processMessage spTest fsOneRow (some taskTest)).1 = none ∧
    (∃ records,
      fsOneRow.parse (processMessage spTest fsOneRow (some taskTest)).2.2 =
        .ok records ∧
      ((processMessage spTest fsOneRow (some taskTest)).2.1 = true ↔
        records ≠ [])) :=
  ⟨by decide, C6_amended spTest fsOneRow (some taskTest) (by decide)⟩

/-- Witness for C2 at a concrete batch: the trace decomposition holds. -/
theorem C2_witness :
    (insertWithRetry dbTest initRepo [rowWithGeo]).2 =
      [Event.sleepRand 100 600, Event.beginMain] ++
        (preloadDictionariesOutsideTx dbTest initRepo [rowWithGeo]).2 ++
        mainTxStmts dbTest initRepo [rowWithGeo] :=
  (C2_amended dbTest initRepo [rowWithGeo]).1
